import Mathlib

/-!
Verification development for the import-map-explorer dependency-graph pipeline.

The TypeScript sources (`src/importAnalyzer.ts`, `src/importMapPanel.ts`) are
shallowly embedded below: the Node `fs` module is modelled by an explicit
finite file-system value, Node's posix `path` helpers by segment functions,
and the regex-based import extractor by direct character scanners that follow
the exec-loop semantics of each pattern.  All definitions are executable.
-/

set_option maxRecDepth 4000

namespace ImportMapExplorer

/-! ### String helpers

Kernel-reducible replacements for the library string functions the embedding
needs (`startsWith`, `endsWith`, `trim`, `splitOn`): everything is routed
through `List Char` so that concrete runs evaluate by `rfl`/`decide`. -/

/-- `s.startsWith pre`. -/
def strStarts (s pre : String) : Bool := pre.toList.isPrefixOf s.toList

/-- `s.endsWith suf`. -/
def strEnds (s suf : String) : Bool := suf.toList.isSuffixOf s.toList

/-- JS `String.trim`: whitespace stripped from both ends. -/
def jsTrim (s : String) : String :=
  String.mk (((s.toList.dropWhile Char.isWhitespace).reverse.dropWhile
    Char.isWhitespace).reverse)

/-- Split a character list at every occurrence of `c`. -/
def splitOnCharCl (c : Char) : List Char → List (List Char)
  | [] => [[]]
  | d :: rest =>
    let r := splitOnCharCl c rest
    if d = c then [] :: r
    else
      match r with
      | s :: ss => (d :: s) :: ss
      | [] => [[d]]

/-- Split a string at every occurrence of `c` (as `String.splitOn`). -/
def splitChar (c : Char) (s : String) : List String :=
  (splitOnCharCl c s.toList).map String.mk

/-! ### Node `path` module (posix), as used by the analyzer -/

/-- Split a path string at separators. -/
def splitSegs (s : String) : List String := splitChar '/' s

/-- Normalisation stack for path segments: drops empty and `.` segments and
lets `..` pop the previously accepted segment (saturating at the root). -/
def normSegsAux : List String → List String → List String
  | acc, [] => acc.reverse
  | acc, s :: rest =>
    if s = "" ∨ s = "." then normSegsAux acc rest
    else if s = ".." then normSegsAux (acc.drop 1) rest
    else normSegsAux (s :: acc) rest

/-- Normalise an absolute path. -/
def pathNorm (s : String) : String :=
  "/" ++ String.intercalate "/" (normSegsAux [] (splitSegs s))

/-- Model of `path.isAbsolute` (posix). -/
def pathIsAbsolute (s : String) : Bool := strStarts s "/"

/-- Model of `path.resolve(dir, src)` for an absolute `dir`. -/
def pathResolve (dir src : String) : String :=
  if pathIsAbsolute src then pathNorm src else pathNorm (dir ++ "/" ++ src)

/-- Model of `path.join(a, b)` for an absolute `a`. -/
def pathJoin (a b : String) : String := pathNorm (a ++ "/" ++ b)

/-- Model of `path.basename`. -/
def pathBasename (s : String) : String :=
  match ((splitSegs s).filter (fun t => t ≠ "")).getLast? with
  | some x => x
  | none => ""

/-- Model of `path.dirname`. -/
def pathDirname (s : String) : String :=
  let segs := splitSegs s
  if segs.length ≤ 1 then "."
  else
    let ini := segs.dropLast
    if ini = [""] then "/" else String.intercalate "/" ini

/-- Drop the common segment prefix of two segment lists. -/
def dropCommon : List String → List String → List String × List String
  | a :: as, b :: bs => if a = b then dropCommon as bs else (a :: as, b :: bs)
  | as, bs => (as, bs)

/-- Model of `path.relative(root, p)` for absolute arguments. -/
def pathRelative (root p : String) : String :=
  let rs := normSegsAux [] (splitSegs root)
  let ps := normSegsAux [] (splitSegs p)
  let rp := dropCommon rs ps
  String.intercalate "/" (rp.1.map (fun _ => "..") ++ rp.2)

/-! ### File-system model (the `fs` module) -/

/-- One file-system entry: a regular file with its UTF-8 content, or a
directory. -/
inductive FSEntry where
  | file (path content : String)
  | dir (path : String)
deriving DecidableEq, Repr

/-- The path of an entry. -/
def FSEntry.path : FSEntry → String
  | .file p _ => p
  | .dir p => p

/-- A finite file system: the ordered list of its entries (order models the
directory-listing order returned by `readdirSync`). -/
structure FS where
  entries : List FSEntry
deriving DecidableEq, Repr

/-- Model of `fs.readFileSync` (UTF-8): `none` models the thrown error. -/
def FS.readFile (fs : FS) (p : String) : Option String :=
  fs.entries.findSome? fun e =>
    match e with
    | .file q c => if q = p then some c else none
    | .dir _ => none

/-- Model of `fs.statSync(p).isFile()`. -/
def FS.isFile (fs : FS) (p : String) : Bool := (fs.readFile p).isSome

/-- Model of `fs.statSync(p).isDirectory()`. -/
def FS.isDir (fs : FS) (p : String) : Bool :=
  fs.entries.any fun e =>
    match e with
    | .dir q => q = p
    | .file _ _ => false

/-- Model of `fs.existsSync`. -/
def FS.existsSync (fs : FS) (p : String) : Bool := fs.isFile p || fs.isDir p

/-- Model of `fs.readdirSync(d, { withFileTypes: true })`: the immediate
children of `d`, each with its `isDirectory` flag, in entry order. -/
def FS.childNames (fs : FS) (d : String) : List (String × Bool) :=
  fs.entries.filterMap fun e =>
    if pathDirname e.path = d then
      some (pathBasename e.path,
        match e with
        | .dir _ => true
        | .file _ _ => false)
    else none

/-! ### Character classes used by the regex patterns -/

/-- JS `\s` on the characters that occur in source text. -/
def isSpaceC (c : Char) : Bool :=
  c = ' ' || c = '\t' || c = '\n' || c = '\x0d' || c = '\x0b' || c = '\x0c'

/-- JS `\w`. -/
def isWordC (c : Char) : Bool := c.isAlphanum || c = '_'

/-- The single-quote character. -/
def qSingle : Char := Char.ofNat 39

/-- The double-quote character. -/
def qDouble : Char := Char.ofNat 34

/-- The backtick character. -/
def qBack : Char := Char.ofNat 96

/-- Left curly bracket. -/
def braceL : Char := Char.ofNat 123

/-- Right curly bracket. -/
def braceR : Char := Char.ofNat 125

/-- Any of the three JS string-literal delimiters. -/
def isQuoteC (c : Char) : Bool := c = qSingle || c = qDouble || c = qBack

/-- JS `.` (any character except a line terminator). -/
def notNewline (c : Char) : Bool := c ≠ '\n' && c ≠ '\x0d'

/-! ### Gitignore rules (class `GitignoreParser`) -/

/-- One parsed `.gitignore` rule, as stored in `GitignoreParser.patterns`. -/
structure IgnoreRule where
  pattern : String
  isNegation : Bool
  isDirectory : Bool
deriving DecidableEq, Repr

/-- Model of `GitignoreParser.globMatch` on character lists: the pattern is
compiled to a full-string regex where `*` becomes `.*` and `?` becomes `.`
and every other character is escaped to a literal. -/
def globMatchF : Nat → List Char → List Char → Bool
  | _, [], [] => true
  | _, [], _ :: _ => false
  | 0, _ :: _, _ => false
  | fuel + 1, p :: ps, l =>
    if p = '*' then
      match l with
      | [] => globMatchF fuel ps []
      | c :: ls => globMatchF fuel ps (c :: ls) || (notNewline c && globMatchF fuel (p :: ps) ls)
    else
      match l with
      | [] => false
      | c :: ls =>
        if p = '?' then notNewline c && globMatchF fuel ps ls
        else p = c && globMatchF fuel ps ls

/-- Model of `GitignoreParser.globMatch` on strings (the fuel covers the sum
of the lengths, which every recursive call decreases). -/
def globMatchS (text pat : String) : Bool :=
  globMatchF (pat.toList.length + text.toList.length) pat.toList text.toList

/-- Replace backslashes by forward slashes (the path normalisation step of
`matchesPattern`). -/
def normSlashes (s : String) : String :=
  String.mk (s.toList.map fun c => if c = '\\' then '/' else c)

/-- Model of `GitignoreParser.matchesPattern`. -/
def matchesPattern (filePath pattern : String) : Bool :=
  let np := normSlashes filePath
  let npat := normSlashes pattern
  if strStarts npat "/" then globMatchS np (npat.drop 1)
  else
    let segs := splitChar '/' np
    globMatchS np npat ||
      (List.range segs.length).any fun i =>
        globMatchS (String.intercalate "/" (segs.drop i)) npat

/-- Model of `GitignoreParser.shouldIgnore`: every rule is folded over in file
order, a matching rule overwriting the current verdict. -/
def shouldIgnore (fs : FS) (projectRoot : String) (rules : List IgnoreRule)
    (filePath : String) : Bool :=
  let relativePath := pathRelative projectRoot filePath
  let isDirectory := fs.existsSync filePath && fs.isDir filePath
  rules.foldl
    (fun acc r =>
      if r.isDirectory && !isDirectory then acc
      else if matchesPattern relativePath r.pattern then !r.isNegation
      else acc)
    false

/-- Model of `GitignoreParser.loadGitignore`: parse the `.gitignore` lines,
skipping blank lines and comments and recording negation and directory-only
markers. -/
def parseGitignore (content : String) : List IgnoreRule :=
  (splitChar '\n' content).foldl
    (fun acc line =>
      let trimmed := jsTrim line
      if trimmed = "" || strStarts trimmed "#" then acc
      else
        let isNeg := strStarts trimmed "!"
        let isDir := strEnds trimmed "/"
        let p1 := if isNeg then trimmed.drop 1 else trimmed
        let p2 := if isDir then p1.dropRight 1 else p1
        acc ++ [⟨p2, isNeg, isDir⟩])
    []

/-- The rule list of a freshly constructed `GitignoreParser` over a root. -/
def loadGitignore (fs : FS) (projectRoot : String) : List IgnoreRule :=
  match fs.readFile (pathJoin projectRoot ".gitignore") with
  | none => []
  | some content => parseGitignore content

/-! ### Regex pattern matchers (`extractImportsWithRegex`)

Each JS regex of the extractor is modelled by a matcher that attempts a match
anchored at the head of the character list and returns the captured source
together with the remainder after the match.  The `g`-flag exec loop is
modelled by `scanWith`, which tries every position left to right and resumes
after the end of each match. -/

/-- Match a literal string at the head. -/
def litM (s : String) (l : List Char) : Option (List Char) :=
  if s.toList.isPrefixOf l then some (l.drop s.length) else none

/-- Match one given character at the head. -/
def charM (c : Char) : List Char → Option (List Char)
  | d :: rest => if d = c then some rest else none
  | [] => none

/-- Greedy `\s*`. -/
def ws0 (l : List Char) : List Char := l.dropWhile isSpaceC

/-- Greedy `\s+`. -/
def ws1 : List Char → Option (List Char)
  | c :: rest => if isSpaceC c then some (rest.dropWhile isSpaceC) else none
  | [] => none

/-- Greedy `\w+`. -/
def word1 : List Char → Option (List Char)
  | c :: rest => if isWordC c then some (rest.dropWhile isWordC) else none
  | [] => none

/-- Match `['"\x60]([^'"\x60]+)['"\x60]`: a quoted module source. -/
def quotedSrc : List Char → Option (String × List Char)
  | c :: rest =>
    if isQuoteC c then
      let cap := rest.takeWhile (fun d => !isQuoteC d)
      let rem := rest.dropWhile (fun d => !isQuoteC d)
      match rem with
      | d :: rem2 => if cap ≠ [] && isQuoteC d then some (String.mk cap, rem2) else none
      | [] => none
    else none
  | [] => none

/-- Pattern `import\s*\{\s*([^}]*)\s*\}\s*from\s*['"\x60]([^'"\x60]+)['"\x60]`. -/
def matchImportBraces (l : List Char) : Option (String × List Char) := do
  let l ← litM "import" l
  let l := ws0 l
  let l ← charM braceL l
  let l := l.dropWhile (fun c => c ≠ braceR)
  let l ← charM braceR l
  let l := ws0 l
  let l ← litM "from" l
  quotedSrc (ws0 l)

/-- Pattern `import\s*\*\s*as\s+(\w+)\s+from\s*['"\x60]([^'"\x60]+)['"\x60]`. -/
def matchImportStar (l : List Char) : Option (String × List Char) := do
  let l ← litM "import" l
  let l ← charM '*' (ws0 l)
  let l ← litM "as" (ws0 l)
  let l ← ws1 l
  let l ← word1 l
  let l ← ws1 l
  let l ← litM "from" l
  quotedSrc (ws0 l)

/-- Pattern `import\s+(\w+)\s+from\s*['"\x60]([^'"\x60]+)['"\x60]`. -/
def matchImportDefault (l : List Char) : Option (String × List Char) := do
  let l ← litM "import" l
  let l ← ws1 l
  let l ← word1 l
  let l ← ws1 l
  let l ← litM "from" l
  quotedSrc (ws0 l)

/-- Pattern `import\s*['"\x60]([^'"\x60]+)['"\x60]`. -/
def matchImportBare (l : List Char) : Option (String × List Char) := do
  let l ← litM "import" l
  quotedSrc (ws0 l)

/-- Tail `\(\s*['"\x60]([^'"\x60]+)['"\x60]\s*\)` of a call-shaped pattern. -/
def callArg (l : List Char) : Option (String × List Char) := do
  let l ← charM '(' l
  let (s, l) ← quotedSrc (ws0 l)
  let l ← charM ')' (ws0 l)
  pure (s, l)

/-- Pattern `\(\s*\)\s*=>\s*import\s*\(\s*['"\x60]([^'"\x60]+)['"\x60]\s*\)`. -/
def matchLazyDynamic (l : List Char) : Option (String × List Char) := do
  let l ← charM '(' l
  let l ← charM ')' (ws0 l)
  let l ← charM '=' (ws0 l)
  let l ← charM '>' l
  let l ← litM "import" (ws0 l)
  callArg (ws0 l)

/-- Pattern `import\s*\(\s*['"\x60]([^'"\x60]+)['"\x60]\s*\)`. -/
def matchDirectDynamic (l : List Char) : Option (String × List Char) := do
  let l ← litM "import" l
  callArg (ws0 l)

/-- Pattern `require\s*\(\s*['"\x60]([^'"\x60]+)['"\x60]\s*\)`. -/
def matchRequireCall (l : List Char) : Option (String × List Char) := do
  let l ← litM "require" l
  callArg (ws0 l)

/-- Tail `=\s*require\s*\(\s*['"\x60]([^'"\x60]+)['"\x60]\s*\)` of the bound
require pattern. -/
def afterEq (l : List Char) : Option (String × List Char) := do
  let l ← charM '=' l
  let l ← litM "require" (ws0 l)
  callArg (ws0 l)

/-- Lazy `.*?` in front of `afterEq`: try the tail at each offset, never
crossing a line terminator. -/
def lazyFindEq : List Char → Option (String × List Char)
  | [] => none
  | c :: rest =>
    match afterEq (c :: rest) with
    | some r => some r
    | none => if notNewline c then lazyFindEq rest else none

/-- One keyword alternative `kw\s+.*?` followed by `afterEq`. -/
def boundRequireKw (kw : String) (l : List Char) : Option (String × List Char) := do
  let l ← litM kw l
  let l ← ws1 l
  lazyFindEq l

/-- JS `\w` or dollar (the class `[\w$_]`). -/
def isWordDollarC (c : Char) : Bool := isWordC c || c = '$'

/-- Alternative `[\w$_]+\s*` followed by `afterEq`. -/
def boundRequireIdent : List Char → Option (String × List Char)
  | c :: rest =>
    if isWordDollarC c then afterEq (ws0 (rest.dropWhile isWordDollarC))
    else none
  | [] => none

/-- Pattern
`(?:(?:const|let|var)\s+.*?|[\w$_]+\s*)=\s*require\s*\(\s*['"\x60]([^'"\x60]+)['"\x60]\s*\)`
with the alternation tried in regex order. -/
def matchBoundRequire (l : List Char) : Option (String × List Char) :=
  match boundRequireKw "const" l with
  | some r => some r
  | none =>
    match boundRequireKw "let" l with
    | some r => some r
    | none =>
      match boundRequireKw "var" l with
      | some r => some r
      | none => boundRequireIdent l

/-- The `g`-flag exec loop: try the matcher at every position left to right,
resuming after the end of each successful match. -/
def scanWithF (tm : List Char → Option (String × List Char)) :
    Nat → List Char → List String
  | 0, _ => []
  | _, [] => []
  | fuel + 1, c :: rest =>
    match tm (c :: rest) with
    | some (s, rem) =>
      if rem.length ≤ rest.length then s :: scanWithF tm fuel rem
      else s :: scanWithF tm fuel rest
    | none => scanWithF tm fuel rest

/-- The exec loop with exact fuel (every step consumes at least one element,
so `l.length` steps always suffice). -/
def scanWith (tm : List Char → Option (String × List Char)) (l : List Char) :
    List String :=
  scanWithF tm l.length l

/-! ### Project type detection (`ImportAnalyzer.detectProjectType` etc.) -/

/-- The `ProjectType` enumeration. -/
inductive ProjectType where
  | typescript
  | javascriptCommonjs
  | javascriptEs6
  | mixed
deriving DecidableEq, Repr

/-- Whether `pat` occurs as a contiguous run inside `l`. -/
def containsRun (pat : List Char) : List Char → Bool
  | [] => pat.isPrefixOf []
  | c :: rest => pat.isPrefixOf (c :: rest) || containsRun pat rest

/-- Model of dependency-name presence in a parsed `package.json`: the quoted
key occurs in the manifest text (abstraction of `JSON.parse` plus key
lookup in `dependencies`/`devDependencies`). -/
def jsonHasKey (content key : String) : Bool :=
  containsRun ("\"" ++ key ++ "\"").toList content.toList

/-- Model of `ImportAnalyzer.shouldIgnoreDirectory`. -/
def shouldIgnoreDirectoryName (dirName : String) : Bool :=
  dirName ∈ ["node_modules", ".git", "dist", "build", "out", ".vscode", ".next"] ||
    strStarts dirName "."

/-- The counters of `analyzeFileDistribution`. -/
structure DistStats where
  tsFiles : Nat
  jsFiles : Nat
  vueFiles : Nat
  svelteFiles : Nat
deriving DecidableEq, Repr

/-- Classify one file name into the distribution counters. -/
def distAddFile (st : DistStats) (name : String) : DistStats :=
  if strEnds name ".ts" || strEnds name ".tsx" then { st with tsFiles := st.tsFiles + 1 }
  else if strEnds name ".js" || strEnds name ".jsx" then { st with jsFiles := st.jsFiles + 1 }
  else if strEnds name ".vue" then { st with vueFiles := st.vueFiles + 1 }
  else if strEnds name ".svelte" then { st with svelteFiles := st.svelteFiles + 1 }
  else st

/-- The `countFiles` walk of `analyzeFileDistribution` as a depth-first
worklist of `(depth, parentDir, name, isDirectory)` frames; the `depth > 3`
cut-off stops descent, and the fuel only bounds the total step count. -/
def distSteps (fs : FS) : Nat → List (Nat × String × String × Bool) → DistStats → DistStats
  | 0, _, st => st
  | _, [], st => st
  | fuel + 1, (depth, dir, name, isD) :: rest, st =>
    if isD then
      if shouldIgnoreDirectoryName name then distSteps fs fuel rest st
      else if depth + 1 > 3 then distSteps fs fuel rest st
      else
        let sub := pathJoin dir name
        distSteps fs fuel
          (((fs.childNames sub).map fun nd => (depth + 1, sub, nd.1, nd.2)) ++ rest) st
    else distSteps fs fuel rest (distAddFile st name)

/-- Model of `ImportAnalyzer.analyzeFileDistribution`; the fuel is ample for
any duplicate-free file system. -/
def analyzeFileDistribution (fs : FS) (projectRoot : String) : DistStats :=
  distSteps fs ((fs.entries.length + 1) * (fs.entries.length + 1))
    ((fs.childNames projectRoot).map fun nd => (0, projectRoot, nd.1, nd.2))
    ⟨0, 0, 0, 0⟩

/-- Matcher for `require\s*\(` (the CommonJS signal counter). -/
def matchRequireOpen (l : List Char) : Option (String × List Char) := do
  let l ← litM "require" l
  let l ← charM '(' (ws0 l)
  pure ("", l)

/-- Matcher for `import\s+` (the ES-module signal counter). -/
def matchImportSpace (l : List Char) : Option (String × List Char) := do
  let l ← litM "import" l
  let l ← ws1 l
  pure ("", l)

/-- The counters of `detectJavaScriptModuleType`. -/
structure JsScan where
  requireCount : Nat
  importCount : Nat
  filesChecked : Nat
deriving DecidableEq, Repr

/-- The `checkFiles` walk of `detectJavaScriptModuleType` as a depth-first
worklist; the `depth > 2` cut-off stops descent and `filesChecked > 20`
freezes the counters (the cascading `break`s of the source). -/
def jsSteps (fs : FS) : Nat → List (Nat × String × String × Bool) → JsScan → JsScan
  | 0, _, st => st
  | _, [], st => st
  | fuel + 1, (depth, dir, name, isD) :: rest, st =>
    if st.filesChecked > 20 then st
    else if isD then
      if shouldIgnoreDirectoryName name then jsSteps fs fuel rest st
      else if depth + 1 > 2 then jsSteps fs fuel rest st
      else
        let sub := pathJoin dir name
        jsSteps fs fuel
          (((fs.childNames sub).map fun nd => (depth + 1, sub, nd.1, nd.2)) ++ rest) st
    else if strEnds name ".js" || strEnds name ".jsx" then
      match fs.readFile (pathJoin dir name) with
      | some content =>
        jsSteps fs fuel rest
          { requireCount :=
              st.requireCount + (scanWith matchRequireOpen content.toList).length,
            importCount :=
              st.importCount + (scanWith matchImportSpace content.toList).length,
            filesChecked := st.filesChecked + 1 }
      | none => jsSteps fs fuel rest st
    else jsSteps fs fuel rest st

/-- Model of `ImportAnalyzer.detectJavaScriptModuleType`. -/
def detectJavaScriptModuleType (fs : FS) (projectRoot : String) : ProjectType :=
  let st := jsSteps fs ((fs.entries.length + 1) * (fs.entries.length + 1))
    ((fs.childNames projectRoot).map fun nd => (0, projectRoot, nd.1, nd.2))
    ⟨0, 0, 0⟩
  if st.requireCount > st.importCount * 2 then ProjectType.javascriptCommonjs
  else if st.importCount > st.requireCount * 2 then ProjectType.javascriptEs6
  else ProjectType.mixed

/-- Model of `ImportAnalyzer.detectProjectType`, with its fall-through
decision ladder. -/
def detectProjectType (fs : FS) (projectRoot : String) : ProjectType :=
  let hasTypeScript := fs.existsSync (pathJoin projectRoot "tsconfig.json")
  let hasTypeScriptDeps :=
    match fs.readFile (pathJoin projectRoot "package.json") with
    | some content =>
      jsonHasKey content "typescript" || jsonHasKey content "@types/node" ||
        jsonHasKey content "ts-node"
    | none => false
  let fileStats := analyzeFileDistribution fs projectRoot
  if (hasTypeScript || hasTypeScriptDeps) && fileStats.tsFiles > 0 then
    if fileStats.jsFiles > 0 then ProjectType.mixed else ProjectType.typescript
  else if (hasTypeScript || hasTypeScriptDeps) && fileStats.jsFiles > 0 then
    ProjectType.typescript
  else if fileStats.tsFiles > 0 && fileStats.jsFiles > 0 then ProjectType.mixed
  else if fileStats.tsFiles > 0 && fileStats.jsFiles = 0 then ProjectType.typescript
  else if fileStats.jsFiles > 0 then detectJavaScriptModuleType fs projectRoot
  else ProjectType.mixed

/-- Model of `ImportAnalyzer.getSupportedExtensions`. -/
def getSupportedExtensions (pt : ProjectType) : List String :=
  match pt with
  | ProjectType.typescript => [".ts", ".tsx", ".vue", ".svelte"]
  | ProjectType.javascriptCommonjs => [".js", ".jsx", ".vue", ".svelte"]
  | ProjectType.javascriptEs6 => [".js", ".jsx", ".vue", ".svelte"]
  | ProjectType.mixed => [".js", ".jsx", ".ts", ".tsx", ".vue", ".svelte"]

/-! ### Nuxt `srcDir` detection -/

/-- Remainder after the first occurrence of a closing block-comment token. -/
def findAfterClose : List Char → Option (List Char)
  | [] => none
  | c :: rest =>
    match litM "*/" (c :: rest) with
    | some r => some r
    | none => findAfterClose rest

/-- Removal of `/* ... */` comments (the regex replace with empty string). -/
def removeBlockCommentsF : Nat → List Char → List Char
  | 0, _ => []
  | _, [] => []
  | fuel + 1, c :: rest =>
    match litM "/*" (c :: rest) with
    | some after =>
      match findAfterClose after with
      | some rem =>
        if rem.length ≤ rest.length then removeBlockCommentsF fuel rem
        else c :: removeBlockCommentsF fuel rest
      | none => c :: removeBlockCommentsF fuel rest
    | none => c :: removeBlockCommentsF fuel rest

/-- Block-comment removal with exact fuel. -/
def removeBlockComments (l : List Char) : List Char :=
  removeBlockCommentsF l.length l

/-- Removal of `// ...` line comments. -/
def removeLineCommentsF : Nat → List Char → List Char
  | 0, _ => []
  | _, [] => []
  | fuel + 1, c :: rest =>
    match litM "//" (c :: rest) with
    | some _ =>
      if ((c :: rest).dropWhile notNewline).length ≤ rest.length then
        removeLineCommentsF fuel ((c :: rest).dropWhile notNewline)
      else c :: removeLineCommentsF fuel rest
    | none => c :: removeLineCommentsF fuel rest

/-- Line-comment removal with exact fuel. -/
def removeLineComments (l : List Char) : List Char :=
  removeLineCommentsF l.length l

/-- Whitespace normalisation `\s+ → single space`. -/
def collapseSpacesF : Nat → List Char → List Char
  | 0, _ => []
  | _, [] => []
  | fuel + 1, c :: rest =>
    if isSpaceC c then ' ' :: collapseSpacesF fuel (rest.dropWhile isSpaceC)
    else c :: collapseSpacesF fuel rest

/-- Whitespace normalisation with exact fuel (`dropWhile` never lengthens the
list, so `l.length` steps suffice). -/
def collapseSpaces (l : List Char) : List Char :=
  collapseSpacesF l.length l

/-- Matcher for `srcDir\s*:\s*['"\x60]([^'"\x60]+)['"\x60]`. -/
def matchSrcDir (l : List Char) : Option (String × List Char) := do
  let l ← litM "srcDir" l
  let l ← charM ':' (ws0 l)
  quotedSrc (ws0 l)

/-- First match of a matcher anywhere in the text (`String.match` without the
`g` flag). -/
def findFirstMatch (tm : List Char → Option (String × List Char)) :
    List Char → Option String
  | [] => none
  | c :: rest =>
    match tm (c :: rest) with
    | some (s, _) => some s
    | none => findFirstMatch tm rest

/-- Model of `ImportAnalyzer.parseNuxtSrcDir`. -/
def parseNuxtSrcDir (content : String) : Option String :=
  let clean := collapseSpaces (removeLineComments (removeBlockComments content.toList))
  match findFirstMatch matchSrcDir clean with
  | none => none
  | some cap =>
    let s := jsTrim cap
    let s := if strEnds s "/" then s.dropRight 1 else s
    if s = "" || s = "./" then some "." else some s

/-- Model of `ImportAnalyzer.detectNuxtSrcDir`. -/
def detectNuxtSrcDir (fs : FS) (projectRoot : String) : String :=
  let configFiles := ["nuxt.config.ts", "nuxt.config.js", "nuxt.config.mjs"]
  match configFiles.findSome? (fun cf =>
    match fs.readFile (pathJoin projectRoot cf) with
    | some content => parseNuxtSrcDir content
    | none => none) with
  | some s => s
  | none =>
    let srcPath := pathJoin projectRoot "src"
    if fs.existsSync srcPath && fs.isDir srcPath then "src" else "."

/-! ### Analyzer state and module resolution -/

/-- The per-invocation state of `ImportAnalyzer` after initialisation. -/
structure AnalyzerCtx where
  fs : FS
  projectRoot : String
  nuxtSrcDir : String
  projectType : ProjectType
  supportedExtensions : List String
  rules : List IgnoreRule
deriving DecidableEq, Repr

/-- The state set up at the start of `analyzeProject` / `analyzeFile`. -/
def initCtx (fs : FS) (projectRoot : String) : AnalyzerCtx :=
  let pt := detectProjectType fs projectRoot
  { fs := fs
    projectRoot := projectRoot
    nuxtSrcDir := detectNuxtSrcDir fs projectRoot
    projectType := pt
    supportedExtensions := getSupportedExtensions pt
    rules := loadGitignore fs projectRoot }

/-- Kinds of the `ImportInfo.type` field (`'dynamic-import'` flows through the
cast at runtime). -/
inductive ImportType where
  | imp
  | req
  | dynamicImport
deriving DecidableEq, Repr

/-- The `ImportInfo` record (the unused `importedNames` field is omitted; it is
never populated). -/
structure ImportInfo where
  source : String
  type : ImportType
  isNodeModule : Bool
  resolvedPath : Option String
deriving DecidableEq, Repr

/-- Model of `ImportAnalyzer.isProjectAlias`. -/
def isProjectAlias (source : String) : Bool :=
  strStarts source "@/" || strStarts source "~/" || strStarts source "~~/" ||
    strStarts source "#app/" || strStarts source "#imports" ||
    strStarts source "#components/"

/-- Model of `ImportAnalyzer.resolveFilePath`: probe the literal path, each
extension, then index files, skipping gitignored candidates; fall back to the
input path itself. -/
def resolveFilePath (ctx : AnalyzerCtx) (filePath : String) : String :=
  let extensions := ["", ".ts", ".js", ".tsx", ".jsx", ".vue", ".svelte"]
  match extensions.findSome? (fun ext =>
    let fullPath := filePath ++ ext
    if ctx.fs.existsSync fullPath && ctx.fs.isFile fullPath then
      if shouldIgnore ctx.fs ctx.projectRoot ctx.rules fullPath then none
      else some fullPath
    else none) with
  | some p => p
  | none =>
    match (extensions.drop 1).findSome? (fun ext =>
      let indexPath := pathJoin filePath ("index" ++ ext)
      if ctx.fs.existsSync indexPath then
        if shouldIgnore ctx.fs ctx.projectRoot ctx.rules indexPath then none
        else some indexPath
      else none) with
    | some p => p
    | none => filePath

/-- Model of `ImportAnalyzer.resolveProjectAlias`. -/
def resolveProjectAlias (ctx : AnalyzerCtx) (source projectRoot : String) :
    Option String :=
  if strStarts source "@/" then
    let withoutAlias := source.drop 2
    let srcPath := pathJoin (pathJoin projectRoot ctx.nuxtSrcDir) withoutAlias
    let aliasPath :=
      if ctx.fs.existsSync srcPath || ctx.fs.existsSync (pathDirname srcPath) then srcPath
      else pathJoin projectRoot withoutAlias
    some (resolveFilePath ctx aliasPath)
  else if strStarts source "~/" || strStarts source "~~/" then
    let withoutAlias := if strStarts source "~~/" then source.drop 3 else source.drop 2
    some (resolveFilePath ctx (pathJoin (pathJoin projectRoot ctx.nuxtSrcDir) withoutAlias))
  else if strStarts source "#app/" || strStarts source "#imports" ||
      strStarts source "#components/" then
    let withoutAlias :=
      match source.toList.findIdx? (fun c => c = '/') with
      | some i => source.drop (i + 1)
      | none => source
    some (resolveFilePath ctx (pathJoin (pathJoin projectRoot ctx.nuxtSrcDir) withoutAlias))
  else none

/-- Model of `ImportAnalyzer.createImportInfo`. -/
def createImportInfo (ctx : AnalyzerCtx) (source fileDir projectRoot : String)
    (type : ImportType) : ImportInfo :=
  let isAlias := isProjectAlias source
  let isNodeModule := !strStarts source "." && !pathIsAbsolute source && !isAlias
  let resolvedPath :=
    if isNodeModule then none
    else if isAlias then resolveProjectAlias ctx source projectRoot
    else some (resolveFilePath ctx (pathResolve fileDir source))
  { source := source, type := type, isNodeModule := isNodeModule,
    resolvedPath := resolvedPath }

/-- Model of `ImportAnalyzer.extractImportsWithRegex`: run every pattern's
exec loop over the whole content, in pattern order. -/
def extractImportsWithRegex (ctx : AnalyzerCtx) (content : List Char)
    (fileDir projectRoot : String) : List ImportInfo :=
  let mk := fun (ty : ImportType) (s : String) =>
    createImportInfo ctx s fileDir projectRoot ty
  ((scanWith matchImportBraces content).map (mk ImportType.imp)) ++
  ((scanWith matchImportStar content).map (mk ImportType.imp)) ++
  ((scanWith matchImportDefault content).map (mk ImportType.imp)) ++
  ((scanWith matchImportBare content).map (mk ImportType.imp)) ++
  ((scanWith matchLazyDynamic content).map (mk ImportType.dynamicImport)) ++
  ((scanWith matchDirectDynamic content).map (mk ImportType.dynamicImport)) ++
  ((scanWith matchRequireCall content).map (mk ImportType.req)) ++
  ((scanWith matchBoundRequire content).map (mk ImportType.req))

/-! ### Vue single-file-component script extraction -/

/-- Case-insensitive literal match. -/
def litCIM (s : String) (l : List Char) : Option (List Char) :=
  if (l.take s.length).map Char.toLower = s.toList.map Char.toLower then
    some (l.drop s.length)
  else none

/-- Remainder after the first case-insensitive closing script tag. -/
def findCloseScript : List Char → Option (List Char)
  | [] => none
  | c :: rest =>
    match litCIM "</script>" (c :: rest) with
    | some r => some r
    | none => findCloseScript rest

/-- Matcher for one `<script[^>]*>([\s\S]*?)<\/script>` block, returning the
whole matched substring (as `String.match` with `g` does). -/
def matchScriptBlock (l : List Char) : Option (String × List Char) := do
  let l1 ← litCIM "<script" l
  let l2 := l1.dropWhile (fun c => c ≠ '>')
  let l3 ← charM '>' l2
  let rem ← findCloseScript l3
  pure (String.mk (l.take (l.length - rem.length)), rem)

/-- Removal of `<script[^>]*>` and `</script>` tags inside one matched block
(the per-match replace step of `extractVueScriptContent`). -/
def stripScriptTagsF : Nat → List Char → List Char
  | 0, _ => []
  | _, [] => []
  | fuel + 1, c :: rest =>
    match (do
        let l1 ← litCIM "<script" (c :: rest)
        let l2 := l1.dropWhile (fun d => d ≠ '>')
        charM '>' l2 : Option (List Char)) with
    | some rem =>
      if rem.length ≤ rest.length then stripScriptTagsF fuel rem
      else c :: stripScriptTagsF fuel rest
    | none =>
      match litCIM "</script>" (c :: rest) with
      | some rem =>
        if rem.length ≤ rest.length then stripScriptTagsF fuel rem
        else c :: stripScriptTagsF fuel rest
      | none => c :: stripScriptTagsF fuel rest

/-- Tag removal with exact fuel. -/
def stripScriptTags (l : List Char) : List Char :=
  stripScriptTagsF l.length l

/-- Model of `ImportAnalyzer.extractVueScriptContent`. -/
def extractVueScriptContent (content : String) : String :=
  let blocks := scanWith matchScriptBlock content.toList
  match blocks with
  | [] => ""
  | _ =>
    String.intercalate "\n" (blocks.map fun b => String.mk (stripScriptTags b.toList))

/-! ### Per-file analysis and the two-pass graph builders -/

/-- Model of `ImportAnalyzer.extractImports`. -/
def extractImports (ctx : AnalyzerCtx) (content : String) (filePath : String) :
    List ImportInfo :=
  let fileDir := pathDirname filePath
  let scriptContent :=
    if strEnds filePath ".vue" then extractVueScriptContent content else content
  extractImportsWithRegex ctx scriptContent.toList fileDir ctx.projectRoot

/-- The `FileNode` record of `types.ts`. -/
structure FileNode where
  path : String
  name : String
  imports : List ImportInfo
  importedBy : List String
  isNodeModule : Bool
deriving DecidableEq, Repr

/-- Model of `ImportAnalyzer.analyzeFileContent`: `none` models the caught
read error. -/
def analyzeFileContent (ctx : AnalyzerCtx) (filePath : String) : Option FileNode :=
  (ctx.fs.readFile filePath).map fun content =>
    { path := filePath
      name := pathBasename filePath
      imports := extractImports ctx content filePath
      importedBy := []
      isNodeModule := false }

/-- A JS `Map<string, FileNode>` in insertion order. -/
abbrev FilesMap := List (String × FileNode)

/-- Model of `Map.get`. -/
def filesGet (m : FilesMap) (k : String) : Option FileNode :=
  (m.find? (fun p => p.1 = k)).map Prod.snd

/-- Model of `Map.has`. -/
def filesHas (m : FilesMap) (k : String) : Bool := (filesGet m k).isSome

/-- Model of `Map.set`: overwrite in place, else append. -/
def filesSet : FilesMap → String → FileNode → FilesMap
  | [], k, v => [(k, v)]
  | (k0, v0) :: rest, k, v =>
    if k0 = k then (k, v) :: rest else (k0, v0) :: filesSet rest k v

/-- One `targetFile.importedBy.push(importer)` on the record stored under
`target` (a no-op when the key is absent, as the `if (targetFile)` guard). -/
def pushImportedBy : FilesMap → String → String → FilesMap
  | [], _, _ => []
  | (k, v) :: rest, target, importer =>
    if k = target then
      (k, { v with importedBy := v.importedBy ++ [importer] }) :: rest
    else (k, v) :: pushImportedBy rest target importer

/-- The `ImportMap` record of `types.ts`. -/
structure ImportMap where
  files : FilesMap
  entryFile : Option String
deriving DecidableEq, Repr

/-- JS `String.replace` with a string search: replace the first occurrence. -/
def replaceFirstCl (pat rep : List Char) : List Char → List Char
  | [] => []
  | c :: rest =>
    if pat.isPrefixOf (c :: rest) then rep ++ (c :: rest).drop pat.length
    else c :: replaceFirstCl pat rep rest

/-- String version of `replaceFirstCl`. -/
def replaceFirst (s pat rep : String) : String :=
  String.mk (replaceFirstCl pat.toList rep.toList s.toList)

/-- Model of `ImportAnalyzer.isCompiledFile`. -/
def isCompiledFile (ctx : AnalyzerCtx) (filePath : String) : Bool :=
  let compiledSibling :=
    if ctx.projectType = ProjectType.typescript || ctx.projectType = ProjectType.mixed then
      (strEnds filePath ".js" &&
        (ctx.fs.existsSync (replaceFirst filePath ".js" ".ts") ||
         ctx.fs.existsSync (replaceFirst filePath ".js" ".tsx"))) ||
      (strEnds filePath ".jsx" &&
        ctx.fs.existsSync (replaceFirst filePath ".jsx" ".tsx"))
    else false
  if compiledSibling then true
  else
    let relativePath := pathRelative ctx.projectRoot filePath
    ["dist/", "build/", "out/", "lib/", ".next/", "coverage/"].any
      (fun d => strStarts relativePath d)

/-- Model of `ImportAnalyzer.isSupportedFile`. -/
def isSupportedFile (ctx : AnalyzerCtx) (filePath : String) : Bool :=
  ctx.supportedExtensions.any (fun ext => strEnds filePath ext)

/-- Model of `ImportAnalyzer.getAllFiles` as a depth-first worklist of
`(parentDir, name, isDirectory)` frames; the fuel only bounds the step count
and is ample for any duplicate-free (hence acyclic) file system. -/
def walkSteps (ctx : AnalyzerCtx) : Nat → List (String × String × Bool) → List String → List String
  | 0, _, acc => acc
  | _, [], acc => acc
  | fuel + 1, (dir, name, isD) :: rest, acc =>
    let fullPath := pathJoin dir name
    if shouldIgnore ctx.fs ctx.projectRoot ctx.rules fullPath then
      walkSteps ctx fuel rest acc
    else if isD then
      if shouldIgnoreDirectoryName name then walkSteps ctx fuel rest acc
      else
        walkSteps ctx fuel
          (((ctx.fs.childNames fullPath).map fun nd => (fullPath, nd.1, nd.2)) ++ rest) acc
    else if isSupportedFile ctx fullPath && !isCompiledFile ctx fullPath then
      walkSteps ctx fuel rest (acc ++ [fullPath])
    else walkSteps ctx fuel rest acc

/-- The top-level `getAllFiles` call on a directory. -/
def getAllFiles (ctx : AnalyzerCtx) (dir : String) : List String :=
  walkSteps ctx ((ctx.fs.entries.length + 1) * (ctx.fs.entries.length + 1))
    ((ctx.fs.childNames dir).map fun nd => (dir, nd.1, nd.2)) []

/-- One import of pass 2: push the importer onto the resolved target's
`importedBy`. -/
def pass2ImportStep (importer : String) (m : FilesMap) (imp : ImportInfo) : FilesMap :=
  if !imp.isNodeModule then
    match imp.resolvedPath with
    | some r => pushImportedBy m r importer
    | none => m
  else m

/-- One record of pass 2: process all of its imports. -/
def pass2FileStep (m : FilesMap) (pn : String × FileNode) : FilesMap :=
  pn.2.imports.foldl (pass2ImportStep pn.1) m

/-- Pass 2 of `analyzeProject`: push each resolved internal import onto the
target record's `importedBy`. -/
def projectPass2 (files : FilesMap) : FilesMap :=
  files.foldl pass2FileStep files

/-- Pass 1 of `analyzeProject`: analyze one file and store its record. -/
def pass1Step (ctx : AnalyzerCtx) (m : FilesMap) (p : String) : FilesMap :=
  match analyzeFileContent ctx p with
  | some n => filesSet m p n
  | none => m

/-- Model of `ImportAnalyzer.analyzeProject`. -/
def analyzeProject (fs : FS) (projectRoot : String) : ImportMap :=
  let ctx := initCtx fs projectRoot
  let allFiles := getAllFiles ctx projectRoot
  let files1 := allFiles.foldl (pass1Step ctx) []
  { files := projectPass2 files1, entryFile := none }

/-- Step 2 of `analyzeFile`: add every discovered file whose imports resolve
to the entry file, recording it in the entry record's `importedBy`. -/
def focImporterStep (ctx : AnalyzerCtx) (filePath : String) (m : FilesMap)
    (p : String) : FilesMap :=
  if p = filePath || filesHas m p then m
  else
    match analyzeFileContent ctx p with
    | none => m
    | some n =>
      if n.imports.any (fun imp =>
          !imp.isNodeModule && imp.resolvedPath = some filePath) then
        pushImportedBy (filesSet m p n) filePath p
      else m

def focusedImporters (ctx : AnalyzerCtx) (filePath : String)
    (allFiles : List String) (files0 : FilesMap) : FilesMap :=
  allFiles.foldl (focImporterStep ctx filePath) files0

/-- Step 3 of `analyzeFile`: add every file the entry file's imports resolve
to, with the entry recorded as its importer. -/
def focDepStep (ctx : AnalyzerCtx) (filePath : String) (m : FilesMap)
    (imp : ImportInfo) : FilesMap :=
  if !imp.isNodeModule then
    match imp.resolvedPath with
    | some r =>
      if filesHas m r then m
      else
        match analyzeFileContent ctx r with
        | some dep =>
          filesSet m r { dep with importedBy := dep.importedBy ++ [filePath] }
        | none => m
    | none => m
  else m

def focusedDependencies (ctx : AnalyzerCtx) (filePath : String)
    (entryImports : List ImportInfo) (files1 : FilesMap) : FilesMap :=
  entryImports.foldl (focDepStep ctx filePath) files1

/-- Model of `ImportAnalyzer.analyzeFile` (focused two-hop mode). -/
def analyzeFile (fs : FS) (filePath projectRoot : String) : ImportMap :=
  let ctx := initCtx fs projectRoot
  match analyzeFileContent ctx filePath with
  | none => { files := [], entryFile := some filePath }
  | some currentNode =>
    let files0 := filesSet [] filePath currentNode
    let allFiles := getAllFiles ctx projectRoot
    let files1 := focusedImporters ctx filePath allFiles files0
    let files2 := focusedDependencies ctx filePath currentNode.imports files1
    { files := files2, entryFile := some filePath }

/-! ### Visualization data (`ImportMapPanel.convertToVisualizationData`) -/

/-- The `VisualizationNode` record of `types.ts` (position fields live on the
layout side). -/
structure VisualizationNode where
  id : String
  label : String
  path : String
  isNodeModule : Bool
  isCurrentFile : Bool
deriving DecidableEq, Repr

/-- The `VisualizationEdge` record of `types.ts` (`from`/`to` are rendered as
`fromId`/`toId`, `from` being reserved in Lean). -/
structure VisualizationEdge where
  fromId : String
  toId : String
  type : ImportType
deriving DecidableEq, Repr

/-- Whether a node with the given id is present (the `nodeIds` set is kept in
lockstep with the node list in the source, so list membership models it). -/
def hasNodeId (nodes : List VisualizationNode) (i : String) : Bool :=
  nodes.any (fun n => n.id = i)

/-- One import of the edge-building pass of `convertToVisualizationData`. -/
def convImportStep (files : FilesMap) (isProjectMode isCurrentFile : Bool)
    (pnKey : String)
    (st2 : List VisualizationNode × List VisualizationEdge) (imp : ImportInfo) :
    List VisualizationNode × List VisualizationEdge :=
  if imp.isNodeModule && (isProjectMode || isCurrentFile) then
    let moduleId := "node_module:" ++ imp.source
    let nodes2 :=
      if hasNodeId st2.1 moduleId then st2.1
      else st2.1 ++
        [{ id := moduleId, label := imp.source, path := imp.source,
           isNodeModule := true, isCurrentFile := false }]
    (nodes2, st2.2 ++ [⟨moduleId, pnKey, imp.type⟩])
  else
    match imp.resolvedPath with
    | some r =>
      if filesHas files r then
        (st2.1, st2.2 ++ [⟨r, pnKey, imp.type⟩])
      else st2
    | none => st2

/-- One record of the edge-building pass. -/
def convFileStep (files : FilesMap) (currentFile : Option String)
    (isProjectMode : Bool)
    (st : List VisualizationNode × List VisualizationEdge)
    (pn : String × FileNode) :
    List VisualizationNode × List VisualizationEdge :=
  pn.2.imports.foldl
    (convImportStep files isProjectMode (currentFile = some pn.1) pn.1) st

/-- The step-1 node list of `convertToVisualizationData`. -/
def convBaseNodes (files : FilesMap) (currentFile : Option String) :
    List VisualizationNode :=
  files.map fun pn =>
    { id := pn.1
      label := pathBasename pn.2.name
      path := pn.1
      isNodeModule := false
      isCurrentFile := currentFile = some pn.1 }

/-- Model of `ImportMapPanel.convertToVisualizationData`. -/
def convertToVisualizationData (importMap : ImportMap)
    (currentFile : Option String) (isProjectMode : Bool) :
    List VisualizationNode × List VisualizationEdge :=
  importMap.files.foldl
    (convFileStep importMap.files currentFile isProjectMode)
    (convBaseNodes importMap.files currentFile, [])

/-! ### Layout engine (webview script of `importMapPanel.ts`)

Coordinates are rationals; the canvas text-measurement function and the
trigonometric functions of `Math` are abstract parameters of the layout: the
placement logic only branches on comparisons, never on analytic properties of
`cos`/`sin`, so any instantiation models one concrete browser environment. -/

/-- Abstract numeric environment: `Math.cos`, `Math.sin`, `Math.PI` and the
canvas `measureText` width. -/
structure LayoutEnv where
  cosF : ℚ → ℚ
  sinF : ℚ → ℚ
  piQ : ℚ
  measure : String → ℚ

/-- A node box size. -/
structure Size where
  width : ℚ
  height : ℚ
deriving DecidableEq, Repr

/-- Model of `calculateNodeSize`: label measurement plus padding, clamped to
the minimum box (`MIN_NODE_WIDTH = 60`, `MIN_NODE_HEIGHT = 30`,
`NODE_PADDING = 20`). -/
def calculateNodeSize (env : LayoutEnv) (text : String) : Size :=
  { width := max 60 (env.measure text + 20 * 2), height := 30 }

/-- A layout-side node (`x`/`y` unset models the `undefined` coordinates of a
node that has not been placed). -/
structure LNode where
  id : String
  label : String
  isCurrentFile : Bool
  size : Size
  x : Option ℚ
  y : Option ℚ
deriving DecidableEq, Repr

/-- Model of `nodesOverlap` on two positioned boxes: the 20-pixel padded
half-extents overlap on both axes. -/
def nodesOverlap (s1 : Size) (x1 y1 : ℚ) (s2 : Size) (x2 y2 : ℚ) : Bool :=
  |x1 - x2| < s1.width / 2 + s2.width / 2 + 20 &&
    |y1 - y2| < s1.height / 2 + s2.height / 2 + 20

/-- A node placed by the spiral pass; `valid` records whether the collision
search succeeded (`false` means the fallback placement was used). -/
structure Placed where
  id : String
  size : Size
  x : ℚ
  y : ℚ
  valid : Bool
deriving DecidableEq, Repr

/-- Whether a candidate box leaves the margin-bounded canvas rectangle. -/
def outOfBounds (cx cy : ℚ) (sz : Size) (x y : ℚ) : Bool :=
  x - sz.width / 2 < 100 || x + sz.width / 2 > cx * 2 - 100 ||
    y - sz.height / 2 < 100 || y + sz.height / 2 > cy * 2 - 100

/-- The spiral search loop of `layoutNodes` for one node: successive
(ring, slot) candidates, at most 100 attempts. -/
def spiralLoop (env : LayoutEnv) (cx cy : ℚ) (index : Nat) (sz : Size)
    (cur : Placed) (placed : List Placed) :
    (fuel : Nat) → (attempts : Nat) → (layer : Nat) → Option (ℚ × ℚ)
  | 0, _, _ => none
  | fuel + 1, attempts, layer =>
    if attempts ≥ 100 then none
    else
      let positions := 8 + layer * 2
      let angleStep := 2 * env.piQ / (positions : ℚ)
      let angle := ((index % positions : Nat) : ℚ) * angleStep + (layer : ℚ) * (1 / 2)
      let distance : ℚ := 150 + (layer : ℚ) * 30
      let x := cx + env.cosF angle * distance
      let y := cy + env.sinF angle * distance
      if outOfBounds cx cy sz x y then
        spiralLoop env cx cy index sz cur placed fuel (attempts + 1) (layer + 1)
      else if nodesOverlap sz x y cur.size cur.x cur.y ||
          placed.any (fun p => nodesOverlap sz x y p.size p.x p.y) then
        spiralLoop env cx cy index sz cur placed fuel (attempts + 1)
          (if attempts % 8 = 7 then layer + 1 else layer)
      else some (x, y)

/-- Place all non-current nodes in order, falling back to the deterministic
increasing-radius position when the spiral search gives up. -/
def placeStep (env : LayoutEnv) (cx cy : ℚ) (cur : Placed) (total : Nat)
    (placed : List Placed) (ix : Nat × String × Size) : List Placed :=
  match spiralLoop env cx cy ix.1 ix.2.2 cur placed 100 0 0 with
  | some xy => placed ++ [⟨ix.2.1, ix.2.2, xy.1, xy.2, true⟩]
  | none =>
    let fallbackAngle := ((ix.1 : ℚ) / (total : ℚ)) * 2 * env.piQ
    let fallbackDistance : ℚ := 150 + ((ix.1 / 8 : Nat) : ℚ) * 30
    placed ++ [⟨ix.2.1, ix.2.2,
      cx + env.cosF fallbackAngle * fallbackDistance,
      cy + env.sinF fallbackAngle * fallbackDistance, false⟩]

def placeOthers (env : LayoutEnv) (cx cy : ℚ) (cur : Placed)
    (others : List (String × Size)) : List Placed :=
  (others.enum).foldl (placeStep env cx cy cur others.length) []

/-- Write the spiral positions back onto the node list in order: the first
current-file node is centred, every other node takes the next placed slot. -/
def rebuildSpiral (nodes : List LNode) (cx cy : ℚ) (placed : List Placed) :
    List LNode :=
  (nodes.foldl
    (fun (st : List LNode × Nat × Bool) n =>
      if n.isCurrentFile then
        if st.2.2 then (st.1 ++ [n], st.2.1, true)
        else (st.1 ++ [{ n with x := some cx, y := some cy }], st.2.1, true)
      else
        match placed.get? st.2.1 with
        | some pl => (st.1 ++ [{ n with x := some pl.x, y := some pl.y }], st.2.1 + 1, st.2.2)
        | none => (st.1 ++ [n], st.2.1 + 1, st.2.2))
    ([], 0, false)).1

/-- The grid layout used when no node is the current file. -/
def gridLayout (cx cy : ℚ) (nodes : List LNode) : List LNode :=
  let maxX := cx * 2 - 100
  let maxY := cy * 2 - 100
  let cols := (Int.floor ((maxX - 100 * 2) / 150)).toNat
  (nodes.enum).map fun ix =>
    let col := ix.1 % cols
    let row := ix.1 / cols
    let x : ℚ := 100 + (col : ℚ) * 150 + 75
    let y : ℚ := 100 + (row : ℚ) * 80 + 40
    { ix.2 with
      x := some (if x > maxX then maxX - 50 else x)
      y := some (if y > maxY then maxY - 30 else y) }

/-- The fresh-layout branch of `layoutNodes` (spiral around the current file,
else grid). -/
def freshLayout (env : LayoutEnv) (cx cy : ℚ) (nodes : List LNode) : List LNode :=
  match nodes.find? (fun n => n.isCurrentFile) with
  | some cn =>
    let others := nodes.filter (fun n => !n.isCurrentFile)
    let placed := placeOthers env cx cy ⟨cn.id, cn.size, cx, cy, true⟩
      (others.map fun n => (n.id, n.size))
    rebuildSpiral nodes cx cy placed
  | none => gridLayout cx cy nodes

/-- A persisted position map (`localStorage` content, already JSON-parsed). -/
abbrev SavedMap := List (String × (ℚ × ℚ))

/-- First-occurrence deduplication (a JS `Set` built from a list). -/
def dedup (l : List String) : List String :=
  l.foldl (fun acc s => if s ∈ acc then acc else acc ++ [s]) []

/-- Model of `loadNodePositions`: returns the updated nodes, the updated
storage (`none` models `removeItem`) and the success flag. -/
def loadNodePositions (nodes : List LNode) (storage : Option SavedMap) :
    List LNode × Option SavedMap × Bool :=
  match storage with
  | none => (nodes, none, false)
  | some positions =>
    let currentIds := dedup (nodes.map LNode.id)
    let savedIds := dedup (positions.map Prod.fst)
    let inter := currentIds.filter (fun i => i ∈ savedIds)
    let pct : ℚ := (inter.length : ℚ) / ((max currentIds.length savedIds.length : Nat) : ℚ)
    if pct < 7 / 10 then (nodes, none, false)
    else
      let restoredNodes := nodes.map fun n =>
        match positions.find? (fun p => p.1 = n.id) with
        | some p => { n with x := some p.2.1, y := some p.2.2 }
        | none => n
      let restored := (nodes.filter
        (fun n => (positions.find? (fun p => p.1 = n.id)).isSome)).length
      (restoredNodes, some positions, restored > 0)

/-- Model of `layoutNodes`: restore persisted positions when possible,
otherwise compute the fresh layout.  `cx`/`cy` are the device-normalised
canvas centre coordinates. -/
def layoutNodes (env : LayoutEnv) (cx cy : ℚ) (nodes : List LNode)
    (storage : Option SavedMap) (forceNew : Bool) :
    List LNode × Option SavedMap :=
  if nodes.length = 0 then (nodes, storage)
  else if forceNew then (freshLayout env cx cy nodes, storage)
  else
    let lr := loadNodePositions nodes storage
    if lr.2.2 then (lr.1, lr.2.1)
    else (freshLayout env cx cy lr.1, lr.2.1)

/-! ### Spec-side definitions used to state the claims -/

/-- Last-matching-rule semantics as the spec words it: all rules are evaluated
in file order and the last applicable matching rule decides the verdict. -/
def lastMatchVerdict (fs : FS) (projectRoot : String) (rules : List IgnoreRule)
    (filePath : String) : Bool :=
  let relativePath := pathRelative projectRoot filePath
  let isDirectory := fs.existsSync filePath && fs.isDir filePath
  let applicable := rules.filter fun r =>
    !(r.isDirectory && !isDirectory) && matchesPattern relativePath r.pattern
  match applicable.getLast? with
  | some r => !r.isNegation
  | none => false

/-- Closed-box disjointness of two padded node boxes (the spec-side notion of
"bounding boxes do not intersect"). -/
def boxesDisjoint (s1 : Size) (x1 y1 : ℚ) (s2 : Size) (x2 y2 : ℚ) : Prop :=
  s1.width / 2 + s2.width / 2 ≤ |x1 - x2| ∨ s1.height / 2 + s2.height / 2 ≤ |y1 - y2|

/-- Focused-mode group two: a discovered file, other than the entry, whose
own imports resolve to the entry file. -/
def focusedGroupTwo (ctx : AnalyzerCtx) (entry p : String) : Prop :=
  p ∈ getAllFiles ctx ctx.projectRoot ∧ p ≠ entry ∧
    ∃ n, analyzeFileContent ctx p = some n ∧
      n.imports.any (fun imp =>
        !imp.isNodeModule && imp.resolvedPath = some entry) = true

/-- Focused-mode group three: a readable file that some import of the entry
file resolves to. -/
def focusedGroupThree (ctx : AnalyzerCtx) (en : FileNode) (p : String) : Prop :=
  (∃ imp ∈ en.imports, imp.isNodeModule = false ∧ imp.resolvedPath = some p) ∧
    (analyzeFileContent ctx p).isSome = true

/-- The qualifying check of `analyzeFile` step 2, as the code computes it. -/
def importsEntry (ctx : AnalyzerCtx) (entry p : String) : Bool :=
  match analyzeFileContent ctx p with
  | some n => n.imports.any fun imp =>
      !imp.isNodeModule && imp.resolvedPath = some entry
  | none => false

/-- The `importedBy` multiset that pass 2 is expected to produce for target
path `k`: one occurrence of each importer per matching import, in map order. -/
def expectedImportedBy (files : FilesMap) (k : String) : List String :=
  files.flatMap fun pn =>
    (pn.2.imports.filter fun imp =>
      !imp.isNodeModule && imp.resolvedPath = some k).map fun _ => pn.1

/-- The overlap fraction computed by `loadNodePositions`:
`|ids in both sets| / max(|current ids|, |persisted ids|)`. -/
def matchFraction (nodes : List LNode) (saved : SavedMap) : ℚ :=
  (((dedup (nodes.map LNode.id)).filter
    (fun i => i ∈ dedup (saved.map Prod.fst))).length : ℚ) /
    ((max (dedup (nodes.map LNode.id)).length
      (dedup (saved.map Prod.fst)).length : Nat) : ℚ)

/-! ### Concrete fixtures -/

/-- A project in which `a.ts` imports `./b` twice. -/
def fsDup : FS :=
  ⟨[.file "/r/a.ts" "import \"./b\";\nimport \"./b\";\n",
    .file "/r/b.ts" "export const b = 1;\n"]⟩

/-- A project for the focused mode: `E` imports `A`; `C` imports `E` and `A`. -/
def fsFoc : FS :=
  ⟨[.file "/r2/A.ts" "",
    .file "/r2/C.ts" "import \"./E\";\nimport \"./A\";\n",
    .file "/r2/E.ts" "import \"./A\";\n"]⟩

/-- The spec's two-hop example: `E` imports `A`, `B`; `C` imports `E`; `A` imports
`D`. -/
def fsHop : FS :=
  ⟨[.file "/r3/E.ts" "import \"./A\";\nimport \"./B\";\n",
    .file "/r3/A.ts" "import \"./D\";\n",
    .file "/r3/B.ts" "",
    .file "/r3/C.ts" "import \"./E\";\n",
    .file "/r3/D.ts" ""]⟩

/-- The entry record of the two-hop example. -/
def nodeHopE : FileNode :=
  (analyzeFileContent (initCtx fsHop "/r3") "/r3/E.ts").getD
    ⟨"", "", [], [], false⟩

/-- A project with a single unresolvable relative import. -/
def fsNope : FS := ⟨[.file "/r4/a.ts" "import \"./nope\";\n"]⟩

/-- The empty file system. -/
def fsEmpty : FS := ⟨[]⟩

/-- The probe extension list of `resolveFilePath`. -/
def probeExtensions : List String := ["", ".ts", ".js", ".tsx", ".jsx", ".vue", ".svelte"]

/-- A concrete numeric environment for layout witnesses. -/
def envW : LayoutEnv :=
  { cosF := fun q => if q = 0 then 1 else 0
    sinF := fun q => if q = 0 then 0 else 1
    piQ := 3
    measure := fun _ => 10 }

/-- The witness node size under `envW` (width clamped to 60). -/
def szW : Size := calculateNodeSize envW "x"

/-- The centred entry box of the layout witnesses. -/
def curW : Placed := ⟨"cur", szW, 500, 500, true⟩

/-- Seven current nodes for the position-reuse fixtures (ids `n1`–`n6`, `g`),
none positioned yet. -/
def nodesReuse : List LNode :=
  ["n1", "n2", "n3", "n4", "n5", "n6", "g"].map fun i =>
    { id := i, label := i, isCurrentFile := i = "n1", size := szW, x := none, y := none }

/-- The record stored for `b.ts` in the duplicate-import project. -/
def recDupB : FileNode :=
  (filesGet (analyzeProject fsDup "/r").files "/r/b.ts").getD ⟨"", "", [], [], false⟩

/-- The record stored for `a.ts` in the duplicate-import project. -/
def recDupA : FileNode :=
  (filesGet (analyzeProject fsDup "/r").files "/r/a.ts").getD ⟨"", "", [], [], false⟩

/-- The record stored for `A.ts` in the focused-mode project. -/
def recFocA : FileNode :=
  (filesGet (analyzeFile fsFoc "/r2/E.ts" "/r2").files "/r2/A.ts").getD
    ⟨"", "", [], [], false⟩

/-- Eight persisted positions sharing six ids with `nodesReuse`. -/
def savedSix : SavedMap :=
  [("n1", (1, 2)), ("n2", (3, 4)), ("n3", (5, 6)), ("n4", (7, 8)),
   ("n5", (9, 10)), ("n6", (11, 12)), ("o1", (13, 14)), ("o2", (15, 16))]

/-- Eight persisted positions sharing only five ids with `nodesReuse`. -/
def savedFive : SavedMap :=
  [("n1", (1, 2)), ("n2", (3, 4)), ("n3", (5, 6)), ("n4", (7, 8)),
   ("n5", (9, 10)), ("o0", (11, 12)), ("o1", (13, 14)), ("o2", (15, 16))]

/-! ### Helper lemmas -/

theorem hasNodeId_append (l l' : List VisualizationNode) (i : String) :
    hasNodeId (l ++ l') i = (hasNodeId l i || hasNodeId l' i) := by
  simp [hasNodeId, List.any_append]

theorem ignore_foldl_lastMatch (rel : String) (isDirectory : Bool)
    (rules : List IgnoreRule) (acc : Bool) :
    rules.foldl
      (fun acc r =>
        if r.isDirectory && !isDirectory then acc
        else if matchesPattern rel r.pattern then !r.isNegation
        else acc)
      acc =
    (match (rules.filter fun r =>
        !(r.isDirectory && !isDirectory) && matchesPattern rel r.pattern).getLast? with
     | some r => !r.isNegation
     | none => acc) := by
  induction rules using List.reverseRecOn generalizing acc with
  | nil => rfl
  | append_singleton l r ih =>
    rw [List.foldl_append, List.filter_append, List.filter_singleton]
    simp only [List.foldl_cons, List.foldl_nil]
    cases hd : (r.isDirectory && !isDirectory) with
    | true =>
      simp only [hd, Bool.not_true, Bool.false_and, Bool.false_eq_true, if_false,
        eq_self_iff_true, if_true, cond_false, cond_true, List.append_nil]
      exact ih acc
    | false =>
      simp only [hd, Bool.not_false, Bool.true_and, Bool.false_eq_true, if_false]
      cases hm : matchesPattern rel r.pattern with
      | true =>
        simp only [hm, eq_self_iff_true, if_true, cond_false, cond_true,
          List.getLast?_concat]
      | false =>
        simp only [hm, Bool.false_eq_true, if_false, cond_false, cond_true,
          List.append_nil]
        exact ih acc

/-! ### C4: last matching ignore rule decides -/

/-- C4: for every path and rule list, `shouldIgnore` is decided by the last
rule that matches (later negations override earlier matches and conversely);
concretely, rules `*.log` then `!important.log` ignore `a.log` but not
`important.log`, and the reversed order ignores `important.log`. -/
theorem c4_last_match_decides :
    (∀ (fs : FS) (projectRoot : String) (rules : List IgnoreRule) (filePath : String),
      shouldIgnore fs projectRoot rules filePath =
        lastMatchVerdict fs projectRoot rules filePath) ∧
    shouldIgnore fsEmpty "/p" (parseGitignore "*.log\n!important.log") "/p/a.log" = true ∧
    shouldIgnore fsEmpty "/p" (parseGitignore "*.log\n!important.log") "/p/important.log" = false ∧
    shouldIgnore fsEmpty "/p" (parseGitignore "!important.log\n*.log") "/p/important.log" = true := by
  refine ⟨fun fs projectRoot rules filePath => ?_, rfl, rfl, rfl⟩
  unfold shouldIgnore lastMatchVerdict
  rw [ignore_foldl_lastMatch]

/-! ### C10: one statement, several extracted references -/

/-- C10: a bound require statement is matched both by the require-call pattern
and by the bound-require pattern (two `require` references with the same
source), and a lazy dynamic import is matched by both dynamic-import patterns
(two `dynamic-import` references). -/
theorem c10_double_extraction :
    (extractImportsWithRegex (initCtx fsEmpty "/p")
        "const x = require(\"./a\");".toList "/p" "/p").map
        (fun i => (i.source, i.type)) =
      [("./a", ImportType.req), ("./a", ImportType.req)] ∧
    (extractImportsWithRegex (initCtx fsEmpty "/p")
        "() => import(\"./a\")".toList "/p" "/p").map
        (fun i => (i.source, i.type)) =
      [("./a", ImportType.dynamicImport), ("./a", ImportType.dynamicImport)] :=
  ⟨rfl, rfl⟩

/-! ### C8: missing entry file yields an empty graph -/

/-- C8: when the designated entry file cannot be read, `analyzeFile` returns,
without failing, the empty files map together with the entry-file marker, so
the caller can render an empty state. -/
theorem c8_missing_entry_file (fs : FS) (filePath projectRoot : String)
    (h : fs.readFile filePath = none) :
    analyzeFile fs filePath projectRoot = { files := [], entryFile := some filePath } := by
  unfold analyzeFile
  simp [analyzeFileContent, initCtx, h]

/-- Witness for C8 at a concrete input. -/
theorem c8_missing_entry_file_witness :
    fsEmpty.readFile "/r/x.ts" = none ∧
      analyzeFile fsEmpty "/r/x.ts" "/r" = { files := [], entryFile := some "/r/x.ts" } :=
  ⟨rfl, c8_missing_entry_file fsEmpty "/r/x.ts" "/r" rfl⟩

/-! ### C2: unresolved imports keep a resolved path (code bug) -/

/-- C2 (divergence witness): with a single file importing `./nope` and no
resolution candidate present — neither the literal path, nor any extension
probe, nor an index file exists — the produced `ImportInfo` still carries
`resolvedPath = some "/r4/nope"`: `resolveFilePath` falls back to returning
its input path instead of leaving the import unresolved. -/
theorem c2_fallback_sets_resolvedPath :
    (probeExtensions.all fun ext => !fsNope.existsSync ("/r4/nope" ++ ext)) = true ∧
    (probeExtensions.all fun ext =>
      !fsNope.existsSync (pathJoin "/r4/nope" ("index" ++ ext))) = true ∧
    ((analyzeProject fsNope "/r4").files.map fun pn =>
      (pn.1, pn.2.imports.map fun i => (i.source, i.isNodeModule, i.resolvedPath))) =
      [("/r4/a.ts", [("./nope", false, some "/r4/nope")])] :=
  ⟨rfl, rfl, rfl⟩

theorem filesHas_iff (m : FilesMap) (k : String) :
    filesHas m k = true ↔ ∃ pn ∈ m, pn.1 = k := by
  simp [filesHas, filesGet, List.find?_isSome]

theorem hasNodeId_iff (nodes : List VisualizationNode) (i : String) :
    hasNodeId nodes i = true ↔ ∃ n ∈ nodes, n.id = i := by
  simp [hasNodeId, List.any_eq_true]

/-! ### C7: no dangling edges -/

/-- C7: every edge emitted by `convertToVisualizationData`, in either display
mode, has both of its endpoint ids present in the emitted node list. -/
theorem c7_no_dangling_edges (importMap : ImportMap) (currentFile : Option String)
    (isProjectMode : Bool) (e : VisualizationEdge)
    (he : e ∈ (convertToVisualizationData importMap currentFile isProjectMode).2) :
    hasNodeId (convertToVisualizationData importMap currentFile isProjectMode).1
      e.fromId = true ∧
    hasNodeId (convertToVisualizationData importMap currentFile isProjectMode).1
      e.toId = true := by
  suffices h :
      (∀ k, filesHas importMap.files k = true →
        hasNodeId (convertToVisualizationData importMap currentFile isProjectMode).1
          k = true) ∧
      (∀ e ∈ (convertToVisualizationData importMap currentFile isProjectMode).2,
        hasNodeId (convertToVisualizationData importMap currentFile isProjectMode).1
          e.fromId = true ∧
        hasNodeId (convertToVisualizationData importMap currentFile isProjectMode).1
          e.toId = true) by
    exact h.2 e he
  unfold convertToVisualizationData
  refine @List.foldlRecOn (List VisualizationNode × List VisualizationEdge)
    (String × FileNode)
    (fun st =>
      (∀ k, filesHas importMap.files k = true → hasNodeId st.1 k = true) ∧
      (∀ e ∈ st.2, hasNodeId st.1 e.fromId = true ∧ hasNodeId st.1 e.toId = true))
    importMap.files _ _ ⟨?_, ?_⟩ ?_
  · intro k hk
    obtain ⟨pn, hpn, hk1⟩ := (filesHas_iff _ _).mp hk
    refine (hasNodeId_iff _ _).mpr ⟨_, List.mem_map_of_mem _ hpn, hk1⟩
  · intro e' he'
    exact absurd he' (List.not_mem_nil e')
  · intro st hst pn hpn
    unfold convFileStep
    refine @List.foldlRecOn (List VisualizationNode × List VisualizationEdge)
      ImportInfo
      (fun st =>
        (∀ k, filesHas importMap.files k = true → hasNodeId st.1 k = true) ∧
        (∀ e ∈ st.2, hasNodeId st.1 e.fromId = true ∧ hasNodeId st.1 e.toId = true))
      pn.2.imports _ st hst ?_
    intro st2 hst2 imp _
    have hpnHas : filesHas importMap.files pn.1 = true :=
      (filesHas_iff _ _).mpr ⟨pn, hpn, rfl⟩
    unfold convImportStep
    by_cases hm : (imp.isNodeModule && (isProjectMode || currentFile = some pn.1)) = true
    · rw [if_pos hm]
      dsimp only
      by_cases hh : hasNodeId st2.1 ("node_module:" ++ imp.source) = true
      · rw [if_pos hh]
        refine ⟨hst2.1, fun e' he' => ?_⟩
        rcases List.mem_append.mp he' with h' | h'
        · exact hst2.2 e' h'
        · rcases List.mem_singleton.mp h' with rfl
          exact ⟨hh, hst2.1 pn.1 hpnHas⟩
      · rw [if_neg hh]
        have hmono : ∀ i, hasNodeId st2.1 i = true →
            hasNodeId (st2.1 ++
              [{ id := "node_module:" ++ imp.source, label := imp.source,
                 path := imp.source, isNodeModule := true,
                 isCurrentFile := false }]) i = true := by
          intro i hi
          rw [hasNodeId_append, hi, Bool.true_or]
        have hmod : hasNodeId (st2.1 ++
            [{ id := "node_module:" ++ imp.source, label := imp.source,
               path := imp.source, isNodeModule := true,
               isCurrentFile := false }]) ("node_module:" ++ imp.source) = true := by
          refine (hasNodeId_iff _ _).mpr ⟨_, List.mem_append_right _ (List.mem_singleton.mpr rfl), rfl⟩
        refine ⟨fun k hk => hmono k (hst2.1 k hk), fun e' he' => ?_⟩
        rcases List.mem_append.mp he' with h' | h'
        · exact ⟨hmono _ (hst2.2 e' h').1, hmono _ (hst2.2 e' h').2⟩
        · rcases List.mem_singleton.mp h' with rfl
          exact ⟨hmod, hmono _ (hst2.1 pn.1 hpnHas)⟩
    · rw [if_neg hm]
      cases hr : imp.resolvedPath with
      | none => exact hst2
      | some r =>
        dsimp only
        by_cases hhas : filesHas importMap.files r = true
        · rw [if_pos hhas]
          refine ⟨hst2.1, fun e' he' => ?_⟩
          rcases List.mem_append.mp he' with h' | h'
          · exact hst2.2 e' h'
          · rcases List.mem_singleton.mp h' with rfl
            exact ⟨hst2.1 r hhas, hst2.1 pn.1 hpnHas⟩
        · rw [if_neg hhas]
          exact hst2

/-- Witness for C7 at a concrete graph and edge. -/
theorem c7_no_dangling_edges_witness :
    (⟨"/r/b.ts", "/r/a.ts", ImportType.imp⟩ : VisualizationEdge) ∈
      (convertToVisualizationData (analyzeProject fsDup "/r") none true).2 ∧
    hasNodeId (convertToVisualizationData (analyzeProject fsDup "/r") none true).1
      "/r/b.ts" = true ∧
    hasNodeId (convertToVisualizationData (analyzeProject fsDup "/r") none true).1
      "/r/a.ts" = true := by
  refine ⟨by decide, ?_⟩
  have h := c7_no_dangling_edges (analyzeProject fsDup "/r") none true
    ⟨"/r/b.ts", "/r/a.ts", ImportType.imp⟩ (by decide)
  exact h

/-! ### C9: the initial layout is deterministic -/

/-- C9: `layoutNodes` is a pure function of its inputs — two runs over equal
node sets (same ids, labels, measured sizes) in the same numeric environment
and with no persisted positions assign identical coordinates. -/
theorem c9_layout_deterministic (env : LayoutEnv) (cx cy : ℚ)
    (nodes1 nodes2 : List LNode) (h : nodes1 = nodes2) :
    layoutNodes env cx cy nodes1 none false = layoutNodes env cx cy nodes2 none false := by
  rw [h]

/-- Witness for C9 at a concrete node list. -/
theorem c9_layout_deterministic_witness :
    layoutNodes envW 500 500 nodesReuse none false =
      layoutNodes envW 500 500 nodesReuse none false :=
  c9_layout_deterministic envW 500 500 nodesReuse nodesReuse rfl


theorem filesGet_nil (q : String) : filesGet [] q = none := rfl

theorem filesGet_cons (k0 : String) (v0 : FileNode) (tl : FilesMap) (q : String) :
    filesGet ((k0, v0) :: tl) q = if k0 = q then some v0 else filesGet tl q := by
  by_cases h : k0 = q <;> simp [filesGet, List.find?_cons, h]

theorem filesGet_filesSet (m : FilesMap) (k : String) (v : FileNode) (q : String) :
    filesGet (filesSet m k v) q = if q = k then some v else filesGet m q := by
  induction m with
  | nil =>
    show filesGet [(k, v)] q = _
    rw [filesGet_cons, filesGet_nil]
    by_cases h : q = k
    · rw [if_pos h.symm, if_pos h]
    · rw [if_neg (fun hh => h hh.symm), if_neg h]
  | cons hd tl ih =>
    obtain ⟨k0, v0⟩ := hd
    by_cases h0 : k0 = k
    · subst h0
      rw [show filesSet ((k0, v0) :: tl) k0 v = (k0, v) :: tl from by simp [filesSet]]
      rw [filesGet_cons, filesGet_cons]
      by_cases h : k0 = q
      · rw [if_pos h, if_pos h.symm]
      · rw [if_neg h, if_neg (fun hh => h hh.symm), if_neg h]
    · rw [show filesSet ((k0, v0) :: tl) k v = (k0, v0) :: filesSet tl k v from by
        simp [filesSet, h0]]
      rw [filesGet_cons, filesGet_cons]
      by_cases h : k0 = q
      · rw [if_pos h, if_neg (fun hh => h0 (h.trans hh)), if_pos h]
      · rw [if_neg h, if_neg h, ih]

theorem filesGet_pushImportedBy (m : FilesMap) (t i : String) (q : String) :
    filesGet (pushImportedBy m t i) q =
      if q = t then
        (filesGet m q).map fun n => { n with importedBy := n.importedBy ++ [i] }
      else filesGet m q := by
  induction m with
  | nil =>
    show filesGet [] q = _
    rw [filesGet_nil]
    by_cases h : q = t <;> simp [h]
  | cons hd tl ih =>
    obtain ⟨k0, v0⟩ := hd
    by_cases h0 : k0 = t
    · subst h0
      rw [show pushImportedBy ((k0, v0) :: tl) k0 i =
          (k0, { v0 with importedBy := v0.importedBy ++ [i] }) :: tl from by
        simp [pushImportedBy]]
      rw [filesGet_cons, filesGet_cons]
      by_cases h : k0 = q
      · rw [if_pos h, if_pos h.symm, if_pos h]
        rfl
      · rw [if_neg h, if_neg (fun hh => h hh.symm), if_neg h]
    · rw [show pushImportedBy ((k0, v0) :: tl) t i = (k0, v0) :: pushImportedBy tl t i from by
        simp [pushImportedBy, h0]]
      rw [filesGet_cons, filesGet_cons]
      by_cases h : k0 = q
      · rw [if_pos h, if_neg (fun hh => h0 (h.trans hh)), if_pos h]
      · rw [if_neg h, if_neg h, ih]

theorem filesHas_filesSet (m : FilesMap) (k : String) (v : FileNode) (q : String) :
    filesHas (filesSet m k v) q = (q = k || filesHas m q) := by
  unfold filesHas
  rw [filesGet_filesSet]
  by_cases h : q = k <;> simp [h]

theorem filesHas_pushImportedBy (m : FilesMap) (t i : String) (q : String) :
    filesHas (pushImportedBy m t i) q = filesHas m q := by
  unfold filesHas
  rw [filesGet_pushImportedBy]
  by_cases h : q = t <;> simp [h]

theorem keys_filesSet (m : FilesMap) (k : String) (v : FileNode) :
    (filesSet m k v).map Prod.fst =
      if k ∈ m.map Prod.fst then m.map Prod.fst else m.map Prod.fst ++ [k] := by
  induction m with
  | nil => simp [filesSet]
  | cons hd tl ih =>
    obtain ⟨k0, v0⟩ := hd
    by_cases h0 : k0 = k
    · subst h0
      rw [show filesSet ((k0, v0) :: tl) k0 v = (k0, v) :: tl from by simp [filesSet]]
      simp
    · rw [show filesSet ((k0, v0) :: tl) k v = (k0, v0) :: filesSet tl k v from by
        simp [filesSet, h0]]
      simp only [List.map_cons, ih]
      by_cases h : k ∈ tl.map Prod.fst
      · have h2 : k ∈ k0 :: tl.map Prod.fst := List.mem_cons_of_mem _ h
        simp [h, h2]
      · have h2 : k ∉ k0 :: tl.map Prod.fst := by
          intro hmem
          rcases List.mem_cons.mp hmem with hh | hh
          · exact h0 hh.symm
          · exact h hh
        simp [h, h2]

theorem nodupKeys_filesSet (m : FilesMap) (k : String) (v : FileNode)
    (h : (m.map Prod.fst).Nodup) : ((filesSet m k v).map Prod.fst).Nodup := by
  rw [keys_filesSet]
  by_cases hk : k ∈ m.map Prod.fst
  · simpa [hk]
  · simp only [hk, if_false]
    exact List.Nodup.append h (List.nodup_singleton k) (by simpa using hk)

theorem analyzeFileContent_importedBy (ctx : AnalyzerCtx) (p : String) (n : FileNode)
    (h : analyzeFileContent ctx p = some n) : n.importedBy = [] := by
  unfold analyzeFileContent at h
  cases hr : ctx.fs.readFile p with
  | none => rw [hr] at h; simp at h
  | some c => rw [hr] at h; simp at h; rw [← h]

theorem pass1_importedBy (ctx : AnalyzerCtx) (L : List String) :
    ∀ k n, filesGet (L.foldl (pass1Step ctx) []) k = some n → n.importedBy = [] := by
  refine @List.foldlRecOn FilesMap String
    (fun m => ∀ k n, filesGet m k = some n → n.importedBy = [])
    L _ [] (fun k n h => by rw [filesGet_nil] at h; exact absurd h (by simp)) ?_
  intro m hm p _
  unfold pass1Step
  cases hc : analyzeFileContent ctx p with
  | none => exact hm
  | some nn =>
    intro k n h
    rw [filesGet_filesSet] at h
    by_cases hkp : k = p
    · rw [if_pos hkp] at h
      cases h
      exact analyzeFileContent_importedBy ctx p nn hc
    · rw [if_neg hkp] at h
      exact hm k n h

theorem pass1_nodupKeys (ctx : AnalyzerCtx) (L : List String) :
    ((L.foldl (pass1Step ctx) []).map Prod.fst).Nodup := by
  refine @List.foldlRecOn FilesMap String
    (fun m => (m.map Prod.fst).Nodup) L _ [] (by simp) ?_
  intro m hm p _
  unfold pass1Step
  cases hc : analyzeFileContent ctx p with
  | none => exact hm
  | some nn => exact nodupKeys_filesSet m p nn hm

theorem pass2_inner (importer : String) (imports : List ImportInfo) (m : FilesMap)
    (q : String) :
    filesGet (imports.foldl (pass2ImportStep importer) m) q =
      (filesGet m q).map fun n =>
        { n with importedBy := n.importedBy ++
            ((imports.filter fun imp =>
              !imp.isNodeModule && imp.resolvedPath = some q).map fun _ => importer) } := by
  induction imports generalizing m with
  | nil =>
    simp only [List.foldl_nil, List.filter_nil, List.map_nil, List.append_nil]
    cases filesGet m q with
    | none => rfl
    | some n => cases n; rfl
  | cons imp rest ih =>
    simp only [List.foldl_cons, List.filter_cons]
    by_cases hnm : imp.isNodeModule = true
    · have hstep : pass2ImportStep importer m imp = m := by
        simp [pass2ImportStep, hnm]
      have hcond : (!imp.isNodeModule && decide (imp.resolvedPath = some q)) = false := by
        simp [hnm]
      rw [hstep, hcond]
      simp only [Bool.false_eq_true, if_false]
      exact ih m
    · rcases Option.eq_none_or_eq_some imp.resolvedPath with hr | ⟨r, hr⟩
      · have hstep : pass2ImportStep importer m imp = m := by
          simp [pass2ImportStep, hnm, hr]
        have hcond : (!imp.isNodeModule && decide (imp.resolvedPath = some q)) = false := by
          simp [hr]
        rw [hstep, hcond]
        simp only [Bool.false_eq_true, if_false]
        exact ih m
      · have hstep : pass2ImportStep importer m imp = pushImportedBy m r importer := by
          simp [pass2ImportStep, hnm, hr]
        rw [hstep, ih, filesGet_pushImportedBy]
        by_cases hq : q = r
        · subst hq
          have hcond : (!imp.isNodeModule && decide (imp.resolvedPath = some q)) = true := by
            simp [hnm, hr]
          rw [if_pos rfl, hcond]
          simp only [eq_self_iff_true, if_true]
          cases hfg : filesGet m q with
          | none => rfl
          | some n =>
            cases n
            simp [List.append_assoc]
        · have hcond : (!imp.isNodeModule && decide (imp.resolvedPath = some q)) = false := by
            simp only [hr, Bool.and_eq_false_iff]
            right
            simp only [Option.some.injEq, decide_eq_false_iff_not]
            exact fun hh => hq hh.symm
          rw [if_neg hq, hcond]
          simp only [Bool.false_eq_true, if_false]

theorem pass2_outer (L : List (String × FileNode)) (m : FilesMap) (q : String) :
    filesGet (L.foldl pass2FileStep m) q =
      (filesGet m q).map fun n =>
        { n with importedBy := n.importedBy ++ expectedImportedBy L q } := by
  induction L generalizing m with
  | nil =>
    simp only [List.foldl_nil, expectedImportedBy, List.flatMap_nil, List.append_nil]
    cases filesGet m q with
    | none => rfl
    | some n => cases n; rfl
  | cons pn rest ih =>
    simp only [List.foldl_cons]
    rw [show pass2FileStep m pn = pn.2.imports.foldl (pass2ImportStep pn.1) m from rfl,
      ih, pass2_inner]
    rw [show expectedImportedBy (pn :: rest) q =
      ((pn.2.imports.filter fun imp =>
        !imp.isNodeModule && imp.resolvedPath = some q).map fun _ => pn.1) ++
        expectedImportedBy rest q from by simp [expectedImportedBy]]
    cases filesGet m q with
    | none => rfl
    | some n =>
      cases n
      simp [List.append_assoc]

theorem count_map_const {α : Type} (l : List α) (c b : String) :
    ((l.map fun _ => c).count b) = if b = c then l.length else 0 := by
  induction l with
  | nil => simp
  | cons a rest ih =>
    simp only [List.map_cons, List.count_cons, ih]
    by_cases h : b = c
    · simp [h]
    · have h2 : ¬ c = b := fun hh => h hh.symm
      simp [h, h2]

theorem expected_count_zero (L : FilesMap) (pA pB : String)
    (h : pB ∉ L.map Prod.fst) :
    (expectedImportedBy L pA).count pB = 0 := by
  induction L with
  | nil => simp [expectedImportedBy]
  | cons pn rest ih =>
    have h1 : pB ≠ pn.1 := by
      intro hh
      exact h (by simp [hh])
    have h2 : pB ∉ rest.map Prod.fst := fun hh => h (List.mem_cons_of_mem _ hh)
    rw [show expectedImportedBy (pn :: rest) pA =
      ((pn.2.imports.filter fun imp =>
        !imp.isNodeModule && imp.resolvedPath = some pA).map fun _ => pn.1) ++
        expectedImportedBy rest pA from by simp [expectedImportedBy]]
    rw [List.count_append, count_map_const, if_neg h1, ih h2]

theorem count_expected (L : FilesMap) (hnd : (L.map Prod.fst).Nodup)
    (pA pB : String) (B : FileNode) (hB : filesGet L pB = some B) :
    (expectedImportedBy L pA).count pB =
      (B.imports.filter fun imp =>
        !imp.isNodeModule && imp.resolvedPath = some pA).length := by
  induction L with
  | nil => rw [filesGet_nil] at hB; exact absurd hB (by simp)
  | cons pn rest ih =>
    obtain ⟨k0, n0⟩ := pn
    rw [show expectedImportedBy ((k0, n0) :: rest) pA =
      ((n0.imports.filter fun imp =>
        !imp.isNodeModule && imp.resolvedPath = some pA).map fun _ => k0) ++
        expectedImportedBy rest pA from by simp [expectedImportedBy]]
    rw [filesGet_cons] at hB
    rw [List.count_append, count_map_const]
    simp only [List.map_cons] at hnd
    have hnd2 := List.nodup_cons.mp hnd
    by_cases h : k0 = pB
    · subst h
      rw [if_pos rfl] at hB
      have hBn : n0 = B := by injection hB
      subst hBn
      rw [if_pos rfl, expected_count_zero rest pA k0 hnd2.1]
      omega
    · rw [if_neg h] at hB
      rw [if_neg (fun hh => h hh.symm), ih hnd2.2 hB]
      omega

theorem afc_node_importedBy (ctx : AnalyzerCtx) (p : String) (n : FileNode)
    (h : analyzeFileContent ctx p = some n) : n.importedBy = [] :=
  analyzeFileContent_importedBy ctx p n h

theorem focused_pres_importers (ctx : AnalyzerCtx) (entry : String)
    (allFiles : List String) (m0 : FilesMap)
    (h0 : ∀ p n, filesGet m0 p = some n → p ≠ entry → ∀ q ∈ n.importedBy, q = entry) :
    ∀ p n, filesGet (focusedImporters ctx entry allFiles m0) p = some n → p ≠ entry →
      ∀ q ∈ n.importedBy, q = entry := by
  unfold focusedImporters
  refine @List.foldlRecOn FilesMap String
    (fun m => ∀ p n, filesGet m p = some n → p ≠ entry → ∀ q ∈ n.importedBy, q = entry)
    allFiles _ m0 h0 ?_
  intro m hm p' _
  unfold focImporterStep
  by_cases hg : (decide (p' = entry) || filesHas m p') = true
  · rw [if_pos hg]; exact hm
  · rw [if_neg hg]
    cases hc : analyzeFileContent ctx p' with
    | none => exact hm
    | some nn =>
      dsimp only
      by_cases ha : (nn.imports.any fun imp =>
          !imp.isNodeModule && imp.resolvedPath = some entry) = true
      · rw [if_pos ha]
        intro pp n hget hne q hq
        rw [filesGet_pushImportedBy, if_neg hne, filesGet_filesSet] at hget
        by_cases hpp : pp = p'
        · rw [if_pos hpp] at hget
          have : nn = n := by injection hget
          subst this
          rw [analyzeFileContent_importedBy ctx p' nn hc] at hq
          exact absurd hq (List.not_mem_nil q)
        · rw [if_neg hpp] at hget
          exact hm pp n hget hne q hq
      · rw [if_neg ha]; exact hm

theorem focused_pres_deps (ctx : AnalyzerCtx) (entry : String)
    (entryImports : List ImportInfo) (m0 : FilesMap)
    (h0 : ∀ p n, filesGet m0 p = some n → p ≠ entry → ∀ q ∈ n.importedBy, q = entry) :
    ∀ p n, filesGet (focusedDependencies ctx entry entryImports m0) p = some n → p ≠ entry →
      ∀ q ∈ n.importedBy, q = entry := by
  unfold focusedDependencies
  refine @List.foldlRecOn FilesMap ImportInfo
    (fun m => ∀ p n, filesGet m p = some n → p ≠ entry → ∀ q ∈ n.importedBy, q = entry)
    entryImports _ m0 h0 ?_
  intro m hm imp _
  unfold focDepStep
  by_cases hnm : (!imp.isNodeModule) = true
  · rw [if_pos hnm]
    rcases Option.eq_none_or_eq_some imp.resolvedPath with hr | ⟨r, hr⟩
    · rw [hr]; exact hm
    · rw [hr]
      dsimp only
      by_cases hh : filesHas m r = true
      · rw [if_pos hh]; exact hm
      · rw [if_neg hh]
        cases hc : analyzeFileContent ctx r with
        | none => exact hm
        | some dep =>
          dsimp only
          intro pp n hget hne q hq
          rw [filesGet_filesSet] at hget
          by_cases hpp : pp = r
          · rw [if_pos hpp] at hget
            have hdep : { dep with importedBy := dep.importedBy ++ [entry] } = n := by
              injection hget
            rw [← hdep] at hq
            simp only [analyzeFileContent_importedBy ctx r dep hc,
              List.nil_append] at hq
            exact (List.mem_singleton.mp hq)
          · rw [if_neg hpp] at hget
            exact hm pp n hget hne q hq
  · rw [if_neg hnm]; exact hm

theorem focused_importedBy (fs : FS) (entry root : String) :
    ∀ p n, filesGet (analyzeFile fs entry root).files p = some n → p ≠ entry →
      ∀ q ∈ n.importedBy, q = entry := by
  intro p n hget hne q hq
  unfold analyzeFile at hget
  dsimp only at hget
  cases hc : analyzeFileContent (initCtx fs root) entry with
  | none =>
    rw [hc] at hget
    exact absurd hget (by simp [filesGet])
  | some en =>
    rw [hc] at hget
    dsimp only at hget
    have h0 : ∀ p n, filesGet (filesSet [] entry en) p = some n → p ≠ entry →
        ∀ q ∈ n.importedBy, q = entry := by
      intro pp nn hg hn
      rw [filesGet_filesSet, if_neg hn, filesGet_nil] at hg
      exact absurd hg (by simp)
    exact focused_pres_deps _ entry en.imports _
      (focused_pres_importers _ entry _ _ h0) p n hget hne q hq

/-! ### C1: the `importedBy` inverse relation (amended)

The original claim fails twice on the code: pass 2 of `analyzeProject` pushes
without a duplicate check, and `analyzeFile` records `importedBy` links only
on the entry file and its direct dependencies.  The amended statement proved
below gives the exact multiset law for whole-project mode and the exact shape
of focused-mode `importedBy` lists. -/

/-- C1 (amended): after `analyzeProject`, the number of occurrences of `B`'s
path in `A.importedBy` equals the number of `B`'s extracted imports that are
internal and resolve to `A`'s path — so membership holds exactly when such
an import exists, and one entry is appended per matching import (duplicates
are not collapsed).  After `analyzeFile`, every record other than the entry has
`importedBy` entries equal to the entry path only (links between two
non-entry records are never recorded). -/
theorem c1_importedBy_exact :
    (∀ (fs : FS) (root pA pB : String) (A B : FileNode),
      filesGet (analyzeProject fs root).files pA = some A →
      filesGet (analyzeProject fs root).files pB = some B →
      A.importedBy.count pB =
        (B.imports.filter fun imp =>
          !imp.isNodeModule && imp.resolvedPath = some pA).length) ∧
    (∀ (fs : FS) (entry root p : String) (n : FileNode),
      filesGet (analyzeFile fs entry root).files p = some n → p ≠ entry →
      ∀ q ∈ n.importedBy, q = entry) := by
  constructor
  · intro fs root pA pB A B hA hB
    unfold analyzeProject at hA hB
    dsimp only at hA hB
    unfold projectPass2 at hA hB
    rw [pass2_outer] at hA hB
    rcases Option.map_eq_some'.mp hA with ⟨A0, hA0, hfA⟩
    rcases Option.map_eq_some'.mp hB with ⟨B0, hB0, hfB⟩
    have hA0ib : A0.importedBy = [] :=
      pass1_importedBy (initCtx fs root) (getAllFiles (initCtx fs root) root) pA A0 hA0
    have hAib : A.importedBy =
        expectedImportedBy
          ((getAllFiles (initCtx fs root) root).foldl (pass1Step (initCtx fs root)) []) pA := by
      rw [← hfA]
      simp [hA0ib]
    have hBimp : B.imports = B0.imports := by
      rw [← hfB]
    rw [hAib, hBimp]
    exact count_expected _
      (pass1_nodupKeys (initCtx fs root) (getAllFiles (initCtx fs root) root)) pA pB B0 hB0
  · exact fun fs entry root => focused_importedBy fs entry root

/-- C1 counterexample: in the duplicate-import project the record of `b.ts`
holds the importer twice (the pass-2 append is not idempotent), and in the
focused-mode project `C.ts` has an import resolving to `A.ts` while `A.ts`'s
`importedBy` is `[E.ts]` only — the claimed equivalence fails for the pair
`(A, C)`. -/
theorem c1_counterexample :
    ((filesGet (analyzeProject fsDup "/r").files "/r/b.ts").map FileNode.importedBy
      = some ["/r/a.ts", "/r/a.ts"]) ∧
    ¬ recDupB.importedBy.Nodup ∧
    ((filesGet (analyzeFile fsFoc "/r2/E.ts" "/r2").files "/r2/C.ts").map
        (fun n => n.imports.map fun i => (i.isNodeModule, i.resolvedPath))
      = some [(false, some "/r2/E.ts"), (false, some "/r2/A.ts")]) ∧
    ((filesGet (analyzeFile fsFoc "/r2/E.ts" "/r2").files "/r2/A.ts").map
        FileNode.importedBy = some ["/r2/E.ts"]) ∧
    "/r2/C.ts" ∉ recFocA.importedBy :=
  ⟨rfl, by decide, rfl, rfl, by decide⟩

/-- Witness for C1 at concrete inputs for both modes. -/
theorem c1_importedBy_exact_witness :
    (recDupB.importedBy.count "/r/a.ts" =
      (recDupA.imports.filter fun imp =>
        !imp.isNodeModule && imp.resolvedPath = some "/r/b.ts").length) ∧
    ("/r2/E.ts" : String) = "/r2/E.ts" := by
  constructor
  · exact c1_importedBy_exact.1 fsDup "/r" "/r/b.ts" "/r/a.ts" recDupB recDupA rfl rfl
  · exact c1_importedBy_exact.2 fsFoc "/r2/E.ts" "/r2" "/r2/A.ts" recFocA rfl
      (by decide) "/r2/E.ts" (by decide)


theorem importsEntry_iff (ctx : AnalyzerCtx) (e p : String) :
    importsEntry ctx e p = true ↔
      ∃ n, analyzeFileContent ctx p = some n ∧
        (n.imports.any fun imp =>
          !imp.isNodeModule && imp.resolvedPath = some e) = true := by
  unfold importsEntry
  cases hc : analyzeFileContent ctx p with
  | none => simp
  | some n => simp

theorem focImporterStep_has (ctx : AnalyzerCtx) (e : String) (m : FilesMap)
    (pq p : String) :
    filesHas (focImporterStep ctx e m pq) p = true ↔
      (filesHas m p = true ∨
        (p = pq ∧ ¬pq = e ∧ filesHas m pq = false ∧ importsEntry ctx e pq = true)) := by
  unfold focImporterStep
  by_cases hg : (decide (pq = e) || filesHas m pq) = true
  · rw [if_pos hg]
    rcases Bool.or_eq_true_iff.mp hg with h | h
    · have he : pq = e := of_decide_eq_true h
      constructor
      · exact fun h2 => Or.inl h2
      · rintro (h2 | ⟨_, hne, _, _⟩)
        · exact h2
        · exact absurd he hne
    · constructor
      · exact fun h2 => Or.inl h2
      · rintro (h2 | ⟨_, _, hf, _⟩)
        · exact h2
        · rw [h] at hf; exact absurd hf (by simp)
  · rw [if_neg hg]
    have hne : ¬pq = e := by
      intro hh
      exact hg (by simp [hh])
    have hnh : filesHas m pq = false := by
      rcases Bool.eq_false_or_eq_true (filesHas m pq) with h | h
      · exact absurd (by simp [h] : (decide (pq = e) || filesHas m pq) = true) hg
      · exact h
    cases hc : analyzeFileContent ctx pq with
    | none =>
      have hie : importsEntry ctx e pq = false := by
        unfold importsEntry; rw [hc]
      constructor
      · exact fun h2 => Or.inl h2
      · rintro (h2 | ⟨_, _, _, hq⟩)
        · exact h2
        · rw [hie] at hq; exact absurd hq (by simp)
    | some nn =>
      dsimp only
      by_cases ha : (nn.imports.any fun imp =>
          !imp.isNodeModule && imp.resolvedPath = some e) = true
      · rw [if_pos ha]
        have hie : importsEntry ctx e pq = true := by
          unfold importsEntry; rw [hc]; exact ha
        rw [show filesHas (pushImportedBy (filesSet m pq nn) e pq) p =
            filesHas (filesSet m pq nn) p from filesHas_pushImportedBy _ _ _ _]
        rw [filesHas_filesSet]
        constructor
        · intro h2
          rcases Bool.or_eq_true_iff.mp h2 with h3 | h3
          · exact Or.inr ⟨of_decide_eq_true h3, hne, hnh, hie⟩
          · exact Or.inl h3
        · rintro (h2 | ⟨h3, _, _, _⟩)
          · simp [h2]
          · simp [h3]
      · rw [if_neg ha]
        have hie : importsEntry ctx e pq = false := by
          unfold importsEntry
          rw [hc]
          exact Bool.eq_false_iff.mpr ha
        constructor
        · exact fun h2 => Or.inl h2
        · rintro (h2 | ⟨_, _, _, hq⟩)
          · exact h2
          · rw [hie] at hq; exact absurd hq (by simp)

theorem focusedImporters_has (ctx : AnalyzerCtx) (e : String) (L : List String)
    (m0 : FilesMap) (p : String) :
    filesHas (focusedImporters ctx e L m0) p = true ↔
      (filesHas m0 p = true ∨
        (p ∈ L ∧ ¬p = e ∧ importsEntry ctx e p = true)) := by
  induction L generalizing m0 with
  | nil => simp [focusedImporters]
  | cons pq rest ih =>
    rw [show focusedImporters ctx e (pq :: rest) m0 =
      focusedImporters ctx e rest (focImporterStep ctx e m0 pq) from rfl]
    rw [ih, focImporterStep_has]
    constructor
    · rintro ((h | ⟨h1, h2, _, h4⟩) | ⟨h1, h2, h3⟩)
      · exact Or.inl h
      · subst h1
        exact Or.inr ⟨List.mem_cons_self _ _, h2, h4⟩
      · exact Or.inr ⟨List.mem_cons_of_mem _ h1, h2, h3⟩
    · rintro (h | ⟨h1, h2, h3⟩)
      · exact Or.inl (Or.inl h)
      · rcases List.mem_cons.mp h1 with h4 | h4
        · subst h4
          rcases Bool.eq_false_or_eq_true (filesHas m0 p) with h5 | h5
          · exact Or.inl (Or.inl h5)
          · exact Or.inl (Or.inr ⟨rfl, h2, h5, h3⟩)
        · exact Or.inr ⟨h4, h2, h3⟩

theorem focDepStep_has (ctx : AnalyzerCtx) (e : String) (m : FilesMap)
    (imp : ImportInfo) (p : String) :
    filesHas (focDepStep ctx e m imp) p = true ↔
      (filesHas m p = true ∨
        (imp.isNodeModule = false ∧ imp.resolvedPath = some p ∧
          (analyzeFileContent ctx p).isSome = true)) := by
  unfold focDepStep
  by_cases hnm : (!imp.isNodeModule) = true
  · rw [if_pos hnm]
    have hnm2 : imp.isNodeModule = false := by
      rcases Bool.eq_false_or_eq_true imp.isNodeModule with h | h
      · exact absurd (by simp [h] : (!imp.isNodeModule) = false) (by simp [hnm])
      · exact h
    rcases Option.eq_none_or_eq_some imp.resolvedPath with hr | ⟨r, hr⟩
    · rw [hr]
      constructor
      · exact fun h => Or.inl h
      · rintro (h | ⟨_, h2, _⟩)
        · exact h
        · exact absurd h2 (by simp)
    · rw [hr]
      dsimp only
      by_cases hh : filesHas m r = true
      · rw [if_pos hh]
        constructor
        · exact fun h => Or.inl h
        · rintro (h | ⟨_, h2, _⟩)
          · exact h
          · have : r = p := by injection h2
            subst this
            exact hh
      · rw [if_neg hh]
        cases hc : analyzeFileContent ctx r with
        | none =>
          constructor
          · exact fun h => Or.inl h
          · rintro (h | ⟨_, h2, h3⟩)
            · exact h
            · have : r = p := by injection h2
              subst this
              rw [hc] at h3
              exact absurd h3 (by simp)
        | some dep =>
          dsimp only
          rw [filesHas_filesSet]
          constructor
          · intro h
            rcases Bool.or_eq_true_iff.mp h with h2 | h2
            · have : p = r := of_decide_eq_true h2
              subst this
              exact Or.inr ⟨hnm2, rfl, by rw [hc]; rfl⟩
            · exact Or.inl h2
          · rintro (h | ⟨_, h2, _⟩)
            · simp [h]
            · have : r = p := by injection h2
              simp [this]
  · rw [if_neg hnm]
    have hnm2 : imp.isNodeModule = true := by
      rcases Bool.eq_false_or_eq_true imp.isNodeModule with h | h
      · exact h
      · exact absurd (by simp [h] : (!imp.isNodeModule) = true) hnm
    constructor
    · exact fun h => Or.inl h
    · rintro (h | ⟨h2, _, _⟩)
      · exact h
      · rw [hnm2] at h2
        exact absurd h2 (by simp)

theorem focusedDependencies_has (ctx : AnalyzerCtx) (e : String)
    (imports : List ImportInfo) (m0 : FilesMap) (p : String) :
    filesHas (focusedDependencies ctx e imports m0) p = true ↔
      (filesHas m0 p = true ∨
        ((∃ imp ∈ imports, imp.isNodeModule = false ∧ imp.resolvedPath = some p) ∧
          (analyzeFileContent ctx p).isSome = true)) := by
  induction imports generalizing m0 with
  | nil => simp [focusedDependencies]
  | cons imp rest ih =>
    rw [show focusedDependencies ctx e (imp :: rest) m0 =
      focusedDependencies ctx e rest (focDepStep ctx e m0 imp) from rfl]
    rw [ih, focDepStep_has]
    constructor
    · rintro ((h | ⟨h1, h2, h3⟩) | ⟨⟨i, hi, h1, h2⟩, h3⟩)
      · exact Or.inl h
      · exact Or.inr ⟨⟨imp, List.mem_cons_self _ _, h1, h2⟩, h3⟩
      · exact Or.inr ⟨⟨i, List.mem_cons_of_mem _ hi, h1, h2⟩, h3⟩
    · rintro (h | ⟨⟨i, hi, h1, h2⟩, h3⟩)
      · exact Or.inl (Or.inl h)
      · rcases List.mem_cons.mp hi with h4 | h4
        · subst h4
          exact Or.inl (Or.inr ⟨h1, h2, h3⟩)
        · exact Or.inr ⟨⟨i, h4, h1, h2⟩, h3⟩

/-! ### C3: the focused-mode node set -/

/-- C3: for every focused-mode build whose entry file is readable, the node
set of the returned graph is exactly the union of the entry file, the
discovered files whose own imports resolve to the entry, and the readable
files the entry's imports resolve to; on the spec's two-hop example the node
set is exactly `{E, C, A, B}` with `D` absent. -/
theorem c3_focused_node_set :
    (∀ (fs : FS) (entry root : String) (en : FileNode),
      analyzeFileContent (initCtx fs root) entry = some en →
      ∀ p, filesHas (analyzeFile fs entry root).files p = true ↔
        (p = entry ∨ focusedGroupTwo (initCtx fs root) entry p ∨
          focusedGroupThree (initCtx fs root) en p)) ∧
    ((analyzeFile fsHop "/r3/E.ts" "/r3").files.map Prod.fst
      = ["/r3/E.ts", "/r3/C.ts", "/r3/A.ts", "/r3/B.ts"]) := by
  refine ⟨?_, rfl⟩
  intro fs entry root en hc p
  unfold analyzeFile
  dsimp only
  rw [hc]
  dsimp only
  rw [focusedDependencies_has, focusedImporters_has, filesHas_filesSet]
  unfold focusedGroupTwo focusedGroupThree
  constructor
  · rintro ((h | ⟨h1, h2, h3⟩) | h)
    · left
      rcases Bool.or_eq_true_iff.mp h with h4 | h4
      · exact of_decide_eq_true h4
      · exact absurd h4 (by simp [filesHas, filesGet])
    · right; left
      exact ⟨h1, h2, (importsEntry_iff _ _ _).mp h3⟩
    · right; right
      exact h
  · rintro (h | ⟨h1, h2, h3⟩ | h)
    · subst h
      left; left
      simp
    · left; right
      exact ⟨h1, h2, (importsEntry_iff _ _ _).mpr h3⟩
    · right
      exact h

/-- Witness for C3 at the two-hop example, instantiated at the absent file
`D.ts`. -/
theorem c3_focused_node_set_witness :
    analyzeFileContent (initCtx fsHop "/r3") "/r3/E.ts" = some nodeHopE ∧
    (filesHas (analyzeFile fsHop "/r3/E.ts" "/r3").files "/r3/D.ts" = true ↔
      ("/r3/D.ts" = "/r3/E.ts" ∨
        focusedGroupTwo (initCtx fsHop "/r3") "/r3/E.ts" "/r3/D.ts" ∨
        focusedGroupThree (initCtx fsHop "/r3") nodeHopE "/r3/D.ts")) :=
  ⟨rfl, c3_focused_node_set.1 fsHop "/r3/E.ts" "/r3" nodeHopE rfl "/r3/D.ts"⟩


/-! ### C5: persisted-position reuse at the 70% threshold -/

theorem dedup_mem (l : List String) (a : String) : a ∈ dedup l ↔ a ∈ l := by
  suffices h : ∀ (l : List String) (acc : List String),
      a ∈ l.foldl (fun acc s => if s ∈ acc then acc else acc ++ [s]) acc ↔
        a ∈ acc ∨ a ∈ l by
    rw [dedup, h]
    simp
  intro l
  induction l with
  | nil => intro acc; simp
  | cons s rest ih =>
    intro acc
    rw [List.foldl_cons, ih]
    by_cases hs : s ∈ acc
    · rw [if_pos hs]
      constructor
      · rintro (h | h)
        · exact Or.inl h
        · exact Or.inr (List.mem_cons_of_mem _ h)
      · rintro (h | h)
        · exact Or.inl h
        · rcases List.mem_cons.mp h with rfl | h2
          · exact Or.inl hs
          · exact Or.inr h2
    · rw [if_neg hs]
      constructor
      · rintro (h | h)
        · rcases List.mem_append.mp h with h2 | h2
          · exact Or.inl h2
          · exact Or.inr (List.mem_cons.mpr (Or.inl (List.mem_singleton.mp h2)))
        · exact Or.inr (List.mem_cons_of_mem _ h)
      · rintro (h | h)
        · exact Or.inl (List.mem_append_left _ h)
        · rcases List.mem_cons.mp h with rfl | h2
          · exact Or.inl (List.mem_append_right _ (List.mem_singleton.mpr rfl))
          · exact Or.inr h2

/-- C5 counterexample: seven current nodes share six ids with eight persisted
positions (75% overlap, reuse branch taken); the matching six receive the
persisted coordinates, but the newly-appeared node `g` receives no placement
at all — its coordinates remain unset, contradicting "newly-appeared nodes
still receive a placement". -/
theorem c5_counterexample :
    ((layoutNodes envW 500 500 nodesReuse (some savedSix) false).1.map
      fun n => (n.id, n.x, n.y)) =
    [("n1", some 1, some 2), ("n2", some 3, some 4), ("n3", some 5, some 6),
     ("n4", some 7, some 8), ("n5", some 9, some 10), ("n6", some 11, some 12),
     ("g", none, none)] := by
  have h6 : ((dedup (nodesReuse.map LNode.id)).filter
      (fun i => i ∈ dedup (savedSix.map Prod.fst))).length = 6 := rfl
  have h8 : (max (dedup (nodesReuse.map LNode.id)).length
      (dedup (savedSix.map Prod.fst)).length) = 8 := rfl
  have hpct : ¬ ((((dedup (nodesReuse.map LNode.id)).filter
      (fun i => i ∈ dedup (savedSix.map Prod.fst))).length : ℚ) /
      ((max (dedup (nodesReuse.map LNode.id)).length
        (dedup (savedSix.map Prod.fst)).length : Nat) : ℚ) < 7/10) := by
    rw [h6, h8]
    norm_num
  unfold layoutNodes loadNodePositions
  dsimp only
  rw [if_neg hpct]
  rfl

/-- C5 (amended): with a persisted map present and nodes to lay out, an
overlap fraction of at least 7/10 makes `layoutNodes` copy the persisted
coordinates onto every matching node and leave every non-matching node
untouched (no placement is computed for newly-appeared nodes), keeping the
stored map; a fraction below 7/10 discards the stored map and computes the
fresh layout for every node. -/
theorem c5_position_reuse (env : LayoutEnv) (cx cy : ℚ) (nodes : List LNode)
    (saved : SavedMap) (hne : nodes ≠ []) :
    (7/10 ≤ matchFraction nodes saved →
      layoutNodes env cx cy nodes (some saved) false =
        ((nodes.map fun n =>
          match saved.find? (fun q => q.1 = n.id) with
          | some q => { n with x := some q.2.1, y := some q.2.2 }
          | none => n), some saved)) ∧
    (matchFraction nodes saved < 7/10 →
      layoutNodes env cx cy nodes (some saved) false =
        (freshLayout env cx cy nodes, none)) := by
  have hlen : ¬ nodes.length = 0 := by
    intro h
    exact hne (List.eq_nil_of_length_eq_zero h)
  constructor
  · intro hge
    have hnlt : ¬ (((((dedup (nodes.map LNode.id)).filter
        (fun i => i ∈ dedup (saved.map Prod.fst))).length : ℚ) /
        ((max (dedup (nodes.map LNode.id)).length
          (dedup (saved.map Prod.fst)).length : Nat) : ℚ)) < 7/10) := by
      unfold matchFraction at hge
      exact not_lt.mpr hge
    have hinter : ((dedup (nodes.map LNode.id)).filter
        (fun i => i ∈ dedup (saved.map Prod.fst))) ≠ [] := by
      intro hnil
      unfold matchFraction at hge
      rw [hnil] at hge
      norm_num at hge
    obtain ⟨i, hi⟩ := List.exists_mem_of_ne_nil _ hinter
    have hmem := List.mem_filter.mp hi
    obtain ⟨n0, hn0, hn0id⟩ := List.mem_map.mp ((dedup_mem _ _).mp hmem.1)
    obtain ⟨q0, hq0, hq0id⟩ :=
      List.mem_map.mp ((dedup_mem _ _).mp (of_decide_eq_true hmem.2))
    have hfind : (saved.find? (fun q => q.1 = n0.id)).isSome = true := by
      rw [List.find?_isSome]
      exact ⟨q0, hq0, decide_eq_true (hq0id.trans hn0id.symm)⟩
    have hrestored : (nodes.filter
        fun n => (saved.find? (fun q => q.1 = n.id)).isSome).length > 0 := by
      refine List.length_pos.mpr ?_
      intro hnil2
      have hm : n0 ∈ nodes.filter
          (fun n => (saved.find? (fun q => q.1 = n.id)).isSome) :=
        List.mem_filter.mpr ⟨hn0, hfind⟩
      rw [hnil2] at hm
      exact absurd hm (List.not_mem_nil _)
    unfold layoutNodes loadNodePositions
    dsimp only
    rw [if_neg hlen, if_neg hnlt]
    dsimp only
    rw [show decide ((nodes.filter
        fun n => (saved.find? (fun q => q.1 = n.id)).isSome).length > 0) = true from
      decide_eq_true hrestored]
    rfl
  · intro hlt
    have hlt2 : (((((dedup (nodes.map LNode.id)).filter
        (fun i => i ∈ dedup (saved.map Prod.fst))).length : ℚ) /
        ((max (dedup (nodes.map LNode.id)).length
          (dedup (saved.map Prod.fst)).length : Nat) : ℚ)) < 7/10) := by
      unfold matchFraction at hlt
      exact hlt
    unfold layoutNodes loadNodePositions
    dsimp only
    rw [if_neg hlen, if_pos hlt2]
    rfl

theorem matchFraction_six : 7/10 ≤ matchFraction nodesReuse savedSix := by
  unfold matchFraction
  rw [show ((dedup (nodesReuse.map LNode.id)).filter
      (fun i => i ∈ dedup (savedSix.map Prod.fst))).length = 6 from rfl,
    show (max (dedup (nodesReuse.map LNode.id)).length
      (dedup (savedSix.map Prod.fst)).length) = 8 from rfl]
  norm_num

theorem matchFraction_five : matchFraction nodesReuse savedFive < 7/10 := by
  unfold matchFraction
  rw [show ((dedup (nodesReuse.map LNode.id)).filter
      (fun i => i ∈ dedup (savedFive.map Prod.fst))).length = 5 from rfl,
    show (max (dedup (nodesReuse.map LNode.id)).length
      (dedup (savedFive.map Prod.fst)).length) = 8 from rfl]
  norm_num

/-- Witness for C5: eight persisted ids with six shared trigger reuse, with
five shared everything is laid out fresh. -/
theorem c5_position_reuse_witness :
    (layoutNodes envW 500 500 nodesReuse (some savedSix) false =
      ((nodesReuse.map fun n =>
        match savedSix.find? (fun q => q.1 = n.id) with
        | some q => { n with x := some q.2.1, y := some q.2.2 }
        | none => n), some savedSix)) ∧
    (layoutNodes envW 500 500 nodesReuse (some savedFive) false =
      (freshLayout envW 500 500 nodesReuse, none)) :=
  ⟨(c5_position_reuse envW 500 500 nodesReuse savedSix (by decide)).1 matchFraction_six,
   (c5_position_reuse envW 500 500 nodesReuse savedFive (by decide)).2 matchFraction_five⟩


/-! ### C6: spiral collision avoidance -/

/-- If the spiral search returns a position, that position overlaps no
already-placed box. -/

theorem spiralLoop_success (env : LayoutEnv) (cx cy : ℚ) (index : Nat)
    (sz : Size) (cur : Placed) (placed : List Placed) :
    ∀ (fuel attempts layer : Nat) (x y : ℚ),
      spiralLoop env cx cy index sz cur placed fuel attempts layer = some (x, y) →
      ∀ p ∈ placed, nodesOverlap sz x y p.size p.x p.y = false := by
  intro fuel
  induction fuel with
  | zero =>
    intro attempts layer x y h
    exact absurd h (by simp [spiralLoop])
  | succ fuel ih =>
    intro attempts layer x y h
    rw [spiralLoop] at h
    by_cases h100 : attempts ≥ 100
    · rw [if_pos h100] at h
      exact absurd h (by simp)
    · rw [if_neg h100] at h
      dsimp only at h
      split at h
      · exact ih _ _ _ _ h
      · split at h
        · exact ih _ _ _ _ h
        · rename_i hoob hov
          simp only [Bool.or_eq_true, not_or, Bool.not_eq_true, List.any_eq_true,
            not_exists, not_and] at hov
          injection h with h2
          rw [Prod.mk.injEq] at h2
          obtain ⟨hx, hy⟩ := h2
          subst hx
          subst hy
          intro p hp
          exact hov.2 p hp

/-- Along `placeOthers`, every validly placed node overlaps no earlier-placed
node. -/
theorem placeOthers_pairwise (env : LayoutEnv) (cx cy : ℚ) (cur : Placed)
    (others : List (String × Size)) :
    ∀ i j p q, i < j →
      (placeOthers env cx cy cur others).get? i = some p →
      (placeOthers env cx cy cur others).get? j = some q →
      q.valid = true →
      nodesOverlap q.size q.x q.y p.size p.x p.y = false := by
  unfold placeOthers
  refine @List.foldlRecOn (List Placed) (Nat × String × Size)
    (fun placed => ∀ i j p q, i < j →
      placed.get? i = some p → placed.get? j = some q → q.valid = true →
      nodesOverlap q.size q.x q.y p.size p.x p.y = false)
    others.enum (placeStep env cx cy cur others.length) [] ?_ ?_
  · intro i j p q _ _ hj _
    rw [List.get?_nil] at hj
    exact absurd hj (by simp)
  · intro placed hplaced ix _
    intro i j p q hij hi hj hqv
    unfold placeStep at hi hj
    cases hs : spiralLoop env cx cy ix.1 ix.2.2 cur placed 100 0 0 with
    | some xy =>
      rw [hs] at hi hj
      have hjlt : j < placed.length + 1 := by
        have := (List.get?_eq_some.mp hj).1
        simpa using this
      rcases Nat.lt_succ_iff_lt_or_eq.mp hjlt with hjl | hje
      · have hil : i < placed.length := lt_trans hij hjl
        rw [List.get?_append hil] at hi
        rw [List.get?_append hjl] at hj
        exact hplaced i j p q hij hi hj hqv
      · subst hje
        rw [List.get?_concat_length] at hj
        have hq : q = ⟨ix.2.1, ix.2.2, xy.1, xy.2, true⟩ := (Option.some.inj hj).symm
        rw [List.get?_append hij] at hi
        have hpm : p ∈ placed := List.get?_mem hi
        have := spiralLoop_success env cx cy ix.1 ix.2.2 cur placed 100 0 0
          xy.1 xy.2 (by rw [hs]) p hpm
        rw [hq]
        exact this
    | none =>
      rw [hs] at hi hj
      have hjlt : j < placed.length + 1 := by
        have := (List.get?_eq_some.mp hj).1
        simpa using this
      rcases Nat.lt_succ_iff_lt_or_eq.mp hjlt with hjl | hje
      · have hil : i < placed.length := lt_trans hij hjl
        rw [List.get?_append hil] at hi
        rw [List.get?_append hjl] at hj
        exact hplaced i j p q hij hi hj hqv
      · subst hje
        rw [List.get?_concat_length] at hj
        have hq : q = ⟨ix.2.1, ix.2.2, _, _, false⟩ := (Option.some.inj hj).symm
        rw [hq] at hqv
        exact absurd hqv (by simp)

/-- A failed `nodesOverlap` check (which demands 20 extra pixels of spacing)
gives closed-box disjointness both ways round. -/
theorem not_overlap_disjoint (a b : Placed)
    (h : nodesOverlap a.size a.x a.y b.size b.x b.y = false) :
    boxesDisjoint a.size a.x a.y b.size b.x b.y ∧
      boxesDisjoint b.size b.x b.y a.size a.x a.y := by
  unfold nodesOverlap at h
  rw [Bool.and_eq_false_iff] at h
  unfold boxesDisjoint
  rcases h with h | h
  · rw [decide_eq_false_iff_not, not_lt] at h
    constructor
    · left; linarith
    · left; rw [abs_sub_comm]; linarith
  · rw [decide_eq_false_iff_not, not_lt] at h
    constructor
    · right; linarith
    · right; rw [abs_sub_comm]; linarith

/-- C6: any two nodes that the spiral layout places without triggering the
fallback placement (`valid = true`) have non-intersecting padded bounding
boxes. -/
theorem c6_spiral_no_overlap (env : LayoutEnv) (cx cy : ℚ) (cur : Placed)
    (others : List (String × Size)) (i j : Nat) (p q : Placed)
    (hij : i ≠ j)
    (hi : (placeOthers env cx cy cur others).get? i = some p)
    (hj : (placeOthers env cx cy cur others).get? j = some q)
    (hp : p.valid = true) (hq : q.valid = true) :
    boxesDisjoint p.size p.x p.y q.size q.x q.y := by
  rcases hij.lt_or_lt with hlt | hlt
  · exact (not_overlap_disjoint q p
      (placeOthers_pairwise env cx cy cur others i j p q hlt hi hj hq)).2
  · exact (not_overlap_disjoint p q
      (placeOthers_pairwise env cx cy cur others j i q p hlt hj hi hp)).1

/-- The witness node size evaluates to the 60 times 30 minimum box. -/
theorem szW_eq : szW = ⟨60, 30⟩ := by
  unfold szW calculateNodeSize envW
  dsimp only
  rw [Size.mk.injEq]
  norm_num

/-- First witness node: the spiral search immediately accepts `(650, 500)`. -/
theorem spiralW_first : spiralLoop envW 500 500 0 szW curW [] 100 0 0 = some (650, 500) := by
  rw [show (100:Nat) = 99+1 from rfl, spiralLoop]
  norm_num [envW, szW_eq, curW, outOfBounds, nodesOverlap]

/-- Second witness node: the spiral search immediately accepts `(500, 650)`. -/
theorem spiralW_second : spiralLoop envW 500 500 1 szW curW
    [⟨"n0", szW, 650, 500, true⟩] 100 0 0 = some (500, 650) := by
  rw [show (100:Nat) = 99+1 from rfl, spiralLoop]
  norm_num [envW, szW_eq, curW, outOfBounds, nodesOverlap]

/-- The two witness nodes are both placed validly by the spiral pass. -/
theorem placeW : placeOthers envW 500 500 curW [("n0", szW), ("n1", szW)] =
    [⟨"n0", szW, 650, 500, true⟩, ⟨"n1", szW, 500, 650, true⟩] := by
  have hp0 : placeStep envW 500 500 curW 2 [] (0, ("n0", szW)) =
      [⟨"n0", szW, 650, 500, true⟩] := by
    unfold placeStep
    dsimp only
    rw [spiralW_first]
    rfl
  have hp1 : placeStep envW 500 500 curW 2 [⟨"n0", szW, 650, 500, true⟩]
      (1, ("n1", szW)) =
      [⟨"n0", szW, 650, 500, true⟩, ⟨"n1", szW, 500, 650, true⟩] := by
    unfold placeStep
    dsimp only
    rw [spiralW_second]
    rfl
  unfold placeOthers
  rw [show ([("n0", szW), ("n1", szW)] : List (String × Size)).enum =
    [(0, ("n0", szW)), (1, ("n1", szW))] from rfl]
  dsimp only [List.length_cons, List.length_nil]
  rw [List.foldl_cons, hp0, List.foldl_cons, hp1, List.foldl_nil]

/-- Witness for C6: the two concretely placed witness nodes at `(650, 500)`
and `(500, 650)` have disjoint boxes. -/
theorem c6_spiral_no_overlap_witness :
    boxesDisjoint (⟨"n0", szW, 650, 500, true⟩ : Placed).size
      (⟨"n0", szW, 650, 500, true⟩ : Placed).x
      (⟨"n0", szW, 650, 500, true⟩ : Placed).y
      (⟨"n1", szW, 500, 650, true⟩ : Placed).size
      (⟨"n1", szW, 500, 650, true⟩ : Placed).x
      (⟨"n1", szW, 500, 650, true⟩ : Placed).y :=
  c6_spiral_no_overlap envW 500 500 curW [("n0", szW), ("n1", szW)] 0 1
    (⟨"n0", szW, 650, 500, true⟩ : Placed) (⟨"n1", szW, 500, 650, true⟩ : Placed)
    (by decide) (by rw [placeW]; rfl) (by rw [placeW]; rfl) rfl rfl

end ImportMapExplorer
